import Mathlib

/-!
Verification of the Pdf_to_json content-structuring pipeline.

This file gives a shallow embedding, in Lean 4, of the core pure logic of
the repository (src/pdf_extractor): the data model of models.py, the
section-tree construction of structure_builder.py, the span classifier of
content_classifier.py, the text normalization and artifact detection of
text_cleaner.py, the cell and table normalization of table_normalizer.py
and the cascading table-extraction state machine of table_extractor.py
with the backend validators of table_wrappers.py.

Conventions of the embedding:
- Python strings are `List Char` (abbreviated `Str`); Python string
  methods (strip, split, lower, ...) are modelled by explicit functions
  on `List Char` that follow CPython semantics on the whitespace set used
  by str.strip and the regex class \s.
- Python floats are modelled as exact rationals `ℚ`; every float
  expression in scope is built from +, *, / and comparisons on small
  decimal constants, where exact rational arithmetic agrees with the
  intent of the source.
- Python lists are Lean lists; dict/Counter iteration order (insertion
  order in CPython 3.7+) is modelled by first-occurrence order.
- Code that raises an exception is modelled with `Except Str`.
-/

namespace PdfExtract

abbrev Str := List Char

/-- Whitespace characters stripped by Python str.strip / str.split and
matched by the regex class \s (Unicode mode): ASCII whitespace, the C1
separators, NEL, NBSP and the Unicode space separators. -/
def pySpaceChars : Str :=
  [' ', '\t', '\n', '\r', Char.ofNat 0x0b, Char.ofNat 0x0c,
   Char.ofNat 0x1c, Char.ofNat 0x1d, Char.ofNat 0x1e, Char.ofNat 0x1f,
   Char.ofNat 0x85, Char.ofNat 0xa0, Char.ofNat 0x1680,
   Char.ofNat 0x2000, Char.ofNat 0x2001, Char.ofNat 0x2002, Char.ofNat 0x2003,
   Char.ofNat 0x2004, Char.ofNat 0x2005, Char.ofNat 0x2006, Char.ofNat 0x2007,
   Char.ofNat 0x2008, Char.ofNat 0x2009, Char.ofNat 0x200a,
   Char.ofNat 0x2028, Char.ofNat 0x2029, Char.ofNat 0x202f,
   Char.ofNat 0x205f, Char.ofNat 0x3000]

def isPySpace (c : Char) : Bool := pySpaceChars.contains c

/-- Python str.lstrip(). -/
def lstrip (s : Str) : Str := s.dropWhile isPySpace

/-- Python str.rstrip(). -/
def rstrip (s : Str) : Str := (s.reverse.dropWhile isPySpace).reverse

/-- Python str.strip(). -/
def pyStrip (s : Str) : Str := lstrip (rstrip s)

theorem dropWhile_len_le {α : Type _} (p : α → Bool) (l : List α) :
    (l.dropWhile p).length ≤ l.length :=
  (List.dropWhile_sublist p).length_le

/-- Python str.split() with no argument: split on whitespace runs,
dropping empty pieces.  (Structurally recursive with one character of
lookahead, so that it evaluates inside the kernel.) -/
def pyWords : Str → List Str
  | [] => []
  | c :: rest =>
    if isPySpace c then pyWords rest
    else
      match rest with
      | [] => [[c]]
      | d :: _ =>
        if isPySpace d then [c] :: pyWords rest
        else
          match pyWords rest with
          | [] => [[c]]
          | w :: ws => (c :: w) :: ws

/-- Python str.lower() restricted to ASCII case mapping (all strings it
is applied to in the sources are ASCII sentinels). -/
def pyLower (s : Str) : Str := s.map Char.toLower

/- ===================== models.py ===================== -/

/-- models.py ContentType: the enum of content labels.  Note the enum has
a member LIST but no LIST_ITEM and no BULLET_LIST. -/
inductive ContentType where
  | text | table | image
  | header | header1 | header2 | header3 | header4 | header5 | header6
  | footer | list | paragraph
  deriving DecidableEq, Repr

/-- ContentType.value, the string payload of each enum member. -/
def ContentType.value : ContentType → Str
  | .text => "text".toList
  | .table => "table".toList
  | .image => "image".toList
  | .header => "header".toList
  | .header1 => "header_1".toList
  | .header2 => "header_2".toList
  | .header3 => "header_3".toList
  | .header4 => "header_4".toList
  | .header5 => "header_5".toList
  | .header6 => "header_6".toList
  | .footer => "footer".toList
  | .list => "list".toList
  | .paragraph => "paragraph".toList

/-- ContentType.is_header_type. -/
def ContentType.isHeaderType : ContentType → Bool
  | .header | .header1 | .header2 | .header3
  | .header4 | .header5 | .header6 => true
  | _ => false

/-- ContentType.get_header_level: HEADER_n maps to n and the generic
HEADER maps to 1; every other member maps to None. -/
def ContentType.getHeaderLevel : ContentType → Option Nat
  | .header1 => some 1
  | .header2 => some 2
  | .header3 => some 3
  | .header4 => some 4
  | .header5 => some 5
  | .header6 => some 6
  | .header => some 1
  | _ => none

/-- models.py HeaderLevel: enum of levels 1..6. -/
inductive HeaderLevel where
  | h1 | h2 | h3 | h4 | h5 | h6
  deriving DecidableEq, Repr

def HeaderLevel.toNat : HeaderLevel → Nat
  | .h1 => 1 | .h2 => 2 | .h3 => 3 | .h4 => 4 | .h5 => 5 | .h6 => 6

/-- HeaderLevel.from_int: ValueError outside [1,6]. -/
def HeaderLevel.fromInt (n : Int) : Except Str HeaderLevel :=
  if n = 1 then .ok .h1 else if n = 2 then .ok .h2
  else if n = 3 then .ok .h3 else if n = 4 then .ok .h4
  else if n = 5 then .ok .h5 else if n = 6 then .ok .h6
  else .error ("Header level must be between 1 and 6".toList)

/-- models.py BoundingBox (width/height are derived in __post_init__,
so we model only the four coordinates). -/
structure BBox where
  x0 : ℚ
  y0 : ℚ
  x1 : ℚ
  y1 : ℚ
  deriving DecidableEq, Repr

/-- models.py FontInfo: font name, size and the PyMuPDF bit flags. -/
structure FontInfo where
  fontName : Str
  fontSize : ℚ
  flags : Nat := 0
  color : Nat := 0
  deriving DecidableEq, Repr

/-- FontInfo.is_bold: bit 4 of flags. -/
def FontInfo.isBold (f : FontInfo) : Bool := f.flags &&& 16 ≠ 0

/-- FontInfo.is_italic: bit 1 of flags. -/
def FontInfo.isItalic (f : FontInfo) : Bool := f.flags &&& 2 ≠ 0

/-- The font_info dictionary attached to classified TextBlocks.
content_classifier.py writes the keys name/size/bold/italic/flags/color;
structure_builder.py reads the keys font_size/is_bold with defaults.  We
model the dictionary with one optional field per key ever used, so that
a read of a missing key (dict.get with default) is faithful. -/
structure FontDict where
  name : Option Str := none
  size : Option ℚ := none
  bold : Option Bool := none
  italic : Option Bool := none
  flags : Option Nat := none
  color : Option Nat := none
  fontSizeKey : Option ℚ := none
  isBoldKey : Option Bool := none
  deriving DecidableEq, Repr

/-- The metadata dictionary of content blocks; we model the keys the
pipeline reads or writes. -/
structure Meta where
  pageNumber : Option Nat := none
  blockNumber : Option Nat := none
  headerLevel : Option Nat := none
  listMarkerType : Option Str := none
  spanCount : Option Nat := none
  parentSectionTitle : Option Str := none
  parentSectionLevel : Option Nat := none
  contentTypeCategory : Option Str := none
  positionInSection : Option Nat := none
  deriving DecidableEq, Repr

/-- models.py TextBlock: a classified block of text. -/
structure TextBlock where
  text : Str
  contentType : ContentType
  bbox : Option BBox := none
  fontInfo : Option FontDict := none
  confidence : ℚ := 1
  metadata : Meta := {}
  deriving DecidableEq, Repr

/-- models.py TableCell. -/
structure TableCell where
  text : Str
  row : Nat
  col : Nat
  rowspan : Nat := 1
  colspan : Nat := 1
  bbox : Option BBox := none
  deriving DecidableEq, Repr

/-- models.py Table. -/
structure Table where
  cells : List TableCell
  rows : Nat
  cols : Nat
  bbox : Option BBox := none
  extractionMethod : Str := "unknown".toList
  confidence : ℚ := 1
  metadata : Meta := {}
  deriving DecidableEq, Repr

/-- models.py ImageInfo (the fields the structure builder touches). -/
structure ImageInfo where
  imageId : Str
  bbox : Option BBox := none
  width : Option Nat := none
  height : Option Nat := none
  format : Option Str := none
  pageNumber : Option Nat := none
  metadata : Meta := {}
  deriving DecidableEq, Repr

/-- Table.to_2d_array: start from a rows x cols grid of empty strings and
write each cell whose coordinates are in range; out-of-range cells are
skipped, and a later cell at the same position overwrites an earlier
one. -/
def Table.to2dArray (t : Table) : List (List Str) :=
  let base := List.replicate t.rows (List.replicate t.cols ([] : Str))
  t.cells.foldl
    (fun arr cell =>
      if cell.row < t.rows && cell.col < t.cols then
        arr.set cell.row ((arr.getD cell.row []).set cell.col cell.text)
      else arr)
    base

/- The write step of Table.to_2d_array, generalized over the grid. -/

/- ===================== structure_builder.py ===================== -/

/-- The union TextBlock | Table | ImageInfo flowing through the structure
builder. -/
inductive Block where
  | text (tb : TextBlock)
  | table (t : Table)
  | image (img : ImageInfo)
  deriving DecidableEq, Repr

/-- StructureBuilder._get_block_type: a TextBlock reports its
content_type value, a Table reports "table", an ImageInfo reports
"image" (hasattr checks in source order: content_type, rows, format). -/
def getBlockType : Block → Str
  | .text tb => tb.contentType.value
  | .table _ => "table".toList
  | .image _ => "image".toList

/-- The content_stats counter dictionary kept in section metadata. -/
structure ContentStats where
  totalBlocks : Nat := 0
  textBlocks : Nat := 0
  tables : Nat := 0
  images : Nat := 0
  paragraphs : Nat := 0
  lists : Nat := 0
  other : Nat := 0
  deriving DecidableEq, Repr

/-- StructureBuilder._update_section_content_stats.  The source's list
branch is `elif content_block.content_type in [ContentType.LIST_ITEM,
ContentType.BULLET_LIST]`; the ContentType enum has no LIST_ITEM and no
BULLET_LIST member, so evaluating that expression raises AttributeError
for every text block whose content_type is not PARAGRAPH (and whose
block type string is not "table"/"image").  We model the raise with
`.error`. -/
def updateSectionContentStats (cur : Option ContentStats) (b : Block) :
    Except Str ContentStats :=
  let stats := cur.getD {}
  let stats := { stats with totalBlocks := stats.totalBlocks + 1 }
  if getBlockType b = "table".toList then
    .ok { stats with tables := stats.tables + 1 }
  else if getBlockType b = "image".toList then
    .ok { stats with images := stats.images + 1 }
  else
    match b with
    | .text tb =>
      if tb.contentType = .paragraph then
        .ok { stats with paragraphs := stats.paragraphs + 1 }
      else
        .error ("AttributeError: type object ContentType has no attribute LIST_ITEM".toList)
    | _ => .ok { stats with other := stats.other + 1 }

/-- models.py SectionNode: a node of the hierarchical section tree.  The
metadata dict is modelled by its content_stats entry plus the flags the
builder writes. -/
inductive SectionNode where
  | mk (title : Str) (level : HeaderLevel) (contentBlocks : List Block)
       (subsections : List SectionNode) (bbox : Option BBox)
       (pageNumber : Option Nat) (stats : Option ContentStats)

def SectionNode.title : SectionNode → Str
  | .mk t _ _ _ _ _ _ => t

def SectionNode.level : SectionNode → HeaderLevel
  | .mk _ l _ _ _ _ _ => l

def SectionNode.contentBlocks : SectionNode → List Block
  | .mk _ _ cb _ _ _ _ => cb

def SectionNode.subsections : SectionNode → List SectionNode
  | .mk _ _ _ subs _ _ _ => subs

def SectionNode.stats : SectionNode → Option ContentStats
  | .mk _ _ _ _ _ _ st => st

/-- SectionNode.add_content. -/
def SectionNode.addContent : SectionNode → Block → SectionNode
  | .mk t l cb subs bb pn st, b => .mk t l (cb ++ [b]) subs bb pn st

/-- SectionNode.add_subsection. -/
def SectionNode.addSubsection : SectionNode → SectionNode → SectionNode
  | .mk t l cb subs bb pn st, s => .mk t l cb (subs ++ [s]) bb pn st

def SectionNode.setStats : SectionNode → Option ContentStats → SectionNode
  | .mk t l cb subs bb pn _, st => .mk t l cb subs bb pn st

/-- StructureBuilder._enhance_content_metadata: record parent-section
title and level, the block-type category, and the ordinal position of
the block within the section. -/
def enhanceContentMetadata (b : Block) (sec : SectionNode) : Block :=
  let upd := fun (m : Meta) =>
    { m with parentSectionTitle := some sec.title,
             parentSectionLevel := some sec.level.toNat,
             contentTypeCategory := some (getBlockType b),
             positionInSection := some sec.contentBlocks.length }
  match b with
  | .text tb => .text { tb with metadata := upd tb.metadata }
  | .table t => .table { t with metadata := upd t.metadata }
  | .image img => .image { img with metadata := upd img.metadata }

/-- StructureBuilder._add_content_to_section: enhance metadata, append
the block to the section, then update the content_stats counters (this
last step can raise, see `updateSectionContentStats`). -/
def addContentToSection (b : Block) (sec : SectionNode) :
    Except Str SectionNode :=
  let b' := enhanceContentMetadata b sec
  let sec' := sec.addContent b'
  match updateSectionContentStats sec'.stats b' with
  | .ok st => .ok (sec'.setStats (some st))
  | .error e => .error e

/-- HeaderStack state: the open-section stack plus the level map.  The
Lean list holds the TOP of the stack at its HEAD (the Python list keeps
the top at the end). -/
structure HeaderStack where
  stack : List SectionNode
  levelMap : List (Nat × SectionNode)

def HeaderStack.empty : HeaderStack := ⟨[], []⟩

/-- The while-loop of HeaderStack.push: pop every section whose level is
greater than or equal to the new level, deleting popped levels from the
level map. -/
def popGE : List SectionNode → List (Nat × SectionNode) → Nat →
    List SectionNode × List (Nat × SectionNode)
  | [], m, _ => ([], m)
  | top :: rest, m, lvl =>
    if top.level.toNat ≥ lvl then
      popGE rest (m.filter (fun p => p.1 ≠ top.level.toNat)) lvl
    else (top :: rest, m)

/-- HeaderStack.push: pop levels ≥ the new one, attach the new section
as a subsection of the remaining top (if any), push it and record it in
the level map. -/
def HeaderStack.push (hs : HeaderStack) (s : SectionNode) : HeaderStack :=
  let lvl := s.level.toNat
  let st := (popGE hs.stack hs.levelMap lvl).1
  let m := (popGE hs.stack hs.levelMap lvl).2
  let st' := match st with
    | [] => [s]
    | parent :: rest => s :: parent.addSubsection s :: rest
  { stack := st',
    levelMap := m.filter (fun p => p.1 ≠ lvl) ++ [(lvl, s)] }

/-- HeaderStack.get_current_section: the top of the stack. -/
def HeaderStack.getCurrentSection (hs : HeaderStack) : Option SectionNode :=
  hs.stack.head?

/-- The levels of the stacked sections, top first. -/
def stackLevels (hs : HeaderStack) : List Nat :=
  hs.stack.map (fun s => s.level.toNat)


theorem SectionNode.level_addSubsection (p s : SectionNode) :
    (p.addSubsection s).level = p.level := by
  cases p; rfl

theorem SectionNode.mem_addSubsection (p s : SectionNode) :
    s ∈ (p.addSubsection s).subsections := by
  cases p; simp [SectionNode.addSubsection, SectionNode.subsections]

/-- The pop loop keeps the stack strictly decreasing (top first) and
leaves a top of strictly smaller level than the pushed one. -/
theorem popGE_pairwise (lvl : Nat) :
    ∀ (st : List SectionNode) (m : List (Nat × SectionNode)),
      (st.map (fun s => s.level.toNat)).Pairwise (· > ·) →
      ((popGE st m lvl).1.map (fun s => s.level.toNat)).Pairwise (· > ·) ∧
      (∀ top ∈ (popGE st m lvl).1.head?, top.level.toNat < lvl) := by
  intro st
  induction st with
  | nil => intro m h; exact ⟨List.Pairwise.nil, by simp [popGE]⟩
  | cons top rest ih =>
    intro m h
    rw [List.map_cons, List.pairwise_cons] at h
    by_cases hge : top.level.toNat ≥ lvl
    · rw [popGE, if_pos hge]
      exact ih _ h.2
    · rw [popGE, if_neg hge]
      refine ⟨?_, ?_⟩
      · rw [List.map_cons, List.pairwise_cons]
        exact h
      · intro t ht
        simp only [List.head?_cons, Option.mem_def, Option.some.injEq] at ht
        subst ht
        omega

/-- One push preserves the strictly-decreasing (top-first) level
invariant. -/
theorem push_pairwise (hs : HeaderStack) (s : SectionNode)
    (h : (stackLevels hs).Pairwise (· > ·)) :
    (stackLevels (hs.push s)).Pairwise (· > ·) := by
  obtain ⟨h1, h2⟩ := popGE_pairwise s.level.toNat hs.stack hs.levelMap h
  rw [HeaderStack.push]
  cases hst : (popGE hs.stack hs.levelMap s.level.toNat).1 with
  | nil => simp [stackLevels, hst]
  | cons parent rest =>
    rw [hst] at h1 h2
    rw [List.map_cons, List.pairwise_cons] at h1
    have hp : parent.level.toNat < s.level.toNat := h2 parent (by simp)
    simp only [stackLevels, hst]
    rw [List.map_cons, List.pairwise_cons]
    constructor
    · intro x hx
      rw [List.map_cons] at hx
      rcases List.mem_cons.mp hx with hx | hx
      · rw [hx, SectionNode.level_addSubsection]; omega
      · have := h1.1 x hx; omega
    · rw [List.map_cons, List.pairwise_cons]
      rw [SectionNode.level_addSubsection]
      exact h1

/-- C3: HeaderStack invariant.  (1) Starting from the empty stack, after
any sequence of pushes the levels of the stacked sections read from
bottom to top form a strictly increasing sequence.  (2) A push always
leaves the new section on top of the stack.  (3) When a parent remains
below the new top after the pops, the new section has been attached to
that parent as one of its subsections. -/
theorem C3_headerStack_push_invariant :
    (∀ secs : List SectionNode,
      ((stackLevels (secs.foldl HeaderStack.push HeaderStack.empty)).reverse).Pairwise
        (· < ·)) ∧
    (∀ (hs : HeaderStack) (s : SectionNode),
      ∃ rest, (hs.push s).stack = s :: rest) ∧
    (∀ (hs : HeaderStack) (s parent : SectionNode) (rest : List SectionNode),
      (hs.push s).stack = s :: parent :: rest → s ∈ parent.subsections) := by
  refine ⟨?_, ?_, ?_⟩
  · intro secs
    rw [List.pairwise_reverse]
    have : ∀ (l : List SectionNode) (hs : HeaderStack),
        (stackLevels hs).Pairwise (· > ·) →
        (stackLevels (l.foldl HeaderStack.push hs)).Pairwise (· > ·) := by
      intro l
      induction l with
      | nil => intro hs h; exact h
      | cons x xs ih => intro hs h; exact ih _ (push_pairwise hs x h)
    exact this secs HeaderStack.empty (by simp [stackLevels, HeaderStack.empty])
  · intro hs s
    rw [HeaderStack.push]
    cases hst : (popGE hs.stack hs.levelMap s.level.toNat).1 with
    | nil => exact ⟨[], by simp [hst]⟩
    | cons parent rest => exact ⟨parent.addSubsection s :: rest, by simp [hst]⟩
  · intro hs s parent rest heq
    rw [HeaderStack.push] at heq
    cases hst : (popGE hs.stack hs.levelMap s.level.toNat).1 with
    | nil => rw [hst] at heq; simp at heq
    | cons p r =>
      rw [hst] at heq
      simp only [List.cons.injEq] at heq
      rw [← heq.2.1]
      exact SectionNode.mem_addSubsection p s

/-- C1: code evaluation at the failing input.  Attaching a LIST-typed
TextBlock to a section raises AttributeError in
_update_section_content_stats (the source names the nonexistent enum
members ContentType.LIST_ITEM / BULLET_LIST), instead of incrementing
the lists counter; attaching a PARAGRAPH block or a Table succeeds and
updates the counters as the spec describes. -/
theorem C1_list_block_attach_raises :
    (updateSectionContentStats (some {})
        (Block.text { text := ("- item".toList), contentType := .list }) =
      .error ("AttributeError: type object ContentType has no attribute LIST_ITEM".toList)) ∧
    (updateSectionContentStats (some {})
        (Block.text { text := ("hello".toList), contentType := .paragraph }) =
      .ok { totalBlocks := 1, paragraphs := 1 }) ∧
    (updateSectionContentStats (some {})
        (Block.table { cells := [], rows := 0, cols := 0 }) =
      .ok { totalBlocks := 1, tables := 1 }) ∧
    ((addContentToSection
        (Block.text { text := ("- item".toList), contentType := .list })
        (.mk ("Content".toList) .h1 [] [] none none none)).isOk = false) := by
  exact ⟨rfl, rfl, rfl, rfl⟩



/-- models.py TextSpan. -/
structure TextSpan where
  text : Str
  bbox : BBox
  fontInfo : FontInfo
  deriving DecidableEq, Repr

/-- models.py TextLine. -/
structure TextLine where
  spans : List TextSpan
  bbox : BBox
  wmode : Nat := 0
  deriving DecidableEq, Repr

/-- TextLine.text: concatenation of span texts. -/
def TextLine.text (l : TextLine) : Str :=
  (l.spans.map TextSpan.text).flatten

/-- models.py ContentBlock (block_type 0 = text, 1 = image). -/
structure ContentBlock where
  blockNumber : Nat
  blockType : Nat
  bbox : BBox
  lines : List TextLine := []
  deriving DecidableEq, Repr

def ContentBlock.isTextBlock (b : ContentBlock) : Bool := b.blockType = 0

/-- ContentBlock.text: newline-joined line texts. -/
def ContentBlock.text (b : ContentBlock) : Str :=
  (List.intercalate ("\n".toList) (b.lines.map TextLine.text))

/-- models.py PageContent (the fields consumed by the embedded
stages). -/
structure PageContent where
  pageNumber : Nat
  textBlocks : List TextBlock := []
  tables : List Table := []
  images : List ImageInfo := []
  pageWidth : ℚ := 0
  pageHeight : ℚ := 0
  rotation : Nat := 0
  contentBlocks : List ContentBlock := []
  deriving DecidableEq, Repr

/-- Witness for C3: pushing an H2 section onto a stack holding an H1
section attaches it as a subsection of that H1 parent. -/
theorem C3_witness :
    ((HeaderStack.empty.push (.mk ("A".toList) .h1 [] [] none none none)).push
        (.mk ("B".toList) .h2 [] [] none none none)).stack =
      (.mk ("B".toList) .h2 [] [] none none none) ::
        ((SectionNode.mk ("A".toList) .h1 [] [] none none none).addSubsection
          (.mk ("B".toList) .h2 [] [] none none none)) :: [] ∧
    (.mk ("B".toList) .h2 [] [] none none none) ∈
      ((SectionNode.mk ("A".toList) .h1 [] [] none none none).addSubsection
        (.mk ("B".toList) .h2 [] [] none none none)).subsections :=
  ⟨rfl, C3_headerStack_push_invariant.2.2
    (HeaderStack.empty.push (.mk ("A".toList) .h1 [] [] none none none))
    (.mk ("B".toList) .h2 [] [] none none none) _ [] rfl⟩

/- The block stream of StructureBuilder.build_structure (claim C2). -/

/-- The bbox consulted by the sort key of _extract_content_blocks. -/
def blockBBox : Block → Option BBox
  | .text tb => tb.bbox
  | .table t => t.bbox
  | .image img => img.bbox

/-- The page_number metadata tag of a block. -/
def blockPageNum : Block → Option Nat
  | .text tb => tb.metadata.pageNumber
  | .table t => t.metadata.pageNumber
  | .image img => img.metadata.pageNumber

/-- get_sort_key of _extract_content_blocks: (bbox.y0, bbox.x0), or
(0, 0) for a block without bbox. -/
def sortKey (b : Block) : ℚ × ℚ :=
  match blockBBox b with
  | some bb => (bb.y0, bb.x0)
  | none => (0, 0)

/-- The lexicographic comparison on sort keys used by the Python
list.sort(key=...). -/
def keyLe (a b : Block) : Prop :=
  (sortKey a).1 < (sortKey b).1 ∨
    ((sortKey a).1 = (sortKey b).1 ∧ (sortKey a).2 ≤ (sortKey b).2)

instance : DecidableRel keyLe := fun a b => by
  unfold keyLe; infer_instance

instance : IsTotal Block keyLe where
  total a b := by
    rcases lt_trichotomy (sortKey a).1 (sortKey b).1 with h | h | h
    · exact Or.inl (Or.inl h)
    · rcases le_total (sortKey a).2 (sortKey b).2 with h2 | h2
      · exact Or.inl (Or.inr ⟨h, h2⟩)
      · exact Or.inr (Or.inr ⟨h.symm, h2⟩)
    · exact Or.inr (Or.inl h)

instance : IsTrans Block keyLe where
  trans a b c hab hbc := by
    rcases hab with h1 | ⟨h1, h1'⟩ <;> rcases hbc with h2 | ⟨h2, h2'⟩
    · exact Or.inl (h1.trans h2)
    · exact Or.inl (h2 ▸ h1)
    · exact Or.inl (h1 ▸ h2)
    · exact Or.inr ⟨h1.trans h2, h1'.trans h2'⟩

/-- The tagged (but not yet sorted) block list of one page: text blocks,
tables, then images, each with page_number written into its metadata. -/
def taggedBlocks (page : PageContent) : List Block :=
  page.textBlocks.map (fun tb =>
      Block.text { tb with metadata :=
        { tb.metadata with pageNumber := some page.pageNumber } }) ++
  page.tables.map (fun t =>
      Block.table { t with metadata :=
        { t.metadata with pageNumber := some page.pageNumber } }) ++
  page.images.map (fun img =>
      Block.image { img with metadata :=
        { img.metadata with pageNumber := some page.pageNumber } })

/-- StructureBuilder._extract_content_blocks: tag the page's blocks with
the page number, then sort them by (y0, x0).  Python's list.sort is a
stable sort; `List.insertionSort` is also stable for the same total
preorder, so both produce the identical list. -/
def extractContentBlocks (page : PageContent) : List Block :=
  List.insertionSort keyLe (taggedBlocks page)

/-- build_structure, lines 127-132: the block stream handed to the
sequential header-stack scan is the page-by-page concatenation of the
per-page sorted block lists. -/
def allBlocks (pages : List PageContent) : List Block :=
  (pages.map extractContentBlocks).flatten

/-- Modelled from the spec sentence of C2 (for comparison only): a
single global sort of the tagged blocks of all pages. -/
def specGlobalStream (pages : List PageContent) : List Block :=
  List.insertionSort keyLe (pages.map taggedBlocks).flatten


/-- C2 (amended): the stream handed to the header-stack scan is the
page-order concatenation of each page's blocks sorted by (y0, x0)
within that page; every block carries its source page number.  (It is
NOT one globally sorted list; see the counterexample.) -/
theorem C2_per_page_sort_then_concat (pages : List PageContent) :
    (allBlocks pages).Perm (pages.map taggedBlocks).flatten ∧
    (∀ p ∈ pages, List.Sorted keyLe (extractContentBlocks p)) ∧
    (∀ p ∈ pages, ∀ b ∈ extractContentBlocks p,
      blockPageNum b = some p.pageNumber) := by
  refine ⟨?_, ?_, ?_⟩
  · unfold allBlocks
    induction pages with
    | nil => simp
    | cons p rest ih =>
      simp only [List.map_cons, List.flatten_cons]
      exact (List.perm_insertionSort keyLe (taggedBlocks p)).append ih
  · intro p _
    exact List.sorted_insertionSort keyLe (taggedBlocks p)
  · intro p _ b hb
    have hb' : b ∈ taggedBlocks p :=
      (List.perm_insertionSort keyLe (taggedBlocks p)).mem_iff.mp hb
    unfold taggedBlocks at hb'
    rcases List.mem_append.mp hb' with h | h
    · rcases List.mem_append.mp h with h | h
      · obtain ⟨tb, _, rfl⟩ := List.mem_map.mp h
        rfl
      · obtain ⟨t, _, rfl⟩ := List.mem_map.mp h
        rfl
    · obtain ⟨img, _, rfl⟩ := List.mem_map.mp h
      rfl

/-- A two-page document where page 2's only block sits higher on the
page (smaller y0) than page 1's only block. -/
def c2PageA : PageContent :=
  { pageNumber := 1,
    textBlocks := [{ text := "low on page one".toList,
                     contentType := .paragraph,
                     bbox := some ⟨0, 100, 10, 110⟩ }] }

def c2PageB : PageContent :=
  { pageNumber := 2,
    textBlocks := [{ text := "high on page two".toList,
                     contentType := .paragraph,
                     bbox := some ⟨0, 5, 10, 15⟩ }] }

/-- C2 counterexample: the stream built by build_structure is the
concatenation of per-page sorted lists and differs from the single
global (y0, x0) sort the claim asserts; in particular the produced
stream is not sorted by (y0, x0) across the page boundary. -/
theorem C2_not_globally_sorted :
    allBlocks [c2PageA, c2PageB] ≠ specGlobalStream [c2PageA, c2PageB] ∧
    ¬ List.Sorted keyLe (allBlocks [c2PageA, c2PageB]) := by
  refine ⟨by decide, ?_⟩
  simp only [List.Sorted]
  decide

/-- Witness for C2 at the two concrete pages. -/
theorem C2_witness :
    c2PageA ∈ [c2PageA, c2PageB] ∧
    List.Sorted keyLe (extractContentBlocks c2PageA) ∧
    (∀ b ∈ extractContentBlocks c2PageA, blockPageNum b = some c2PageA.pageNumber) :=
  ⟨List.mem_cons_self _ _,
    (C2_per_page_sort_then_concat [c2PageA, c2PageB]).2.1 c2PageA
      (List.mem_cons_self _ _),
    (C2_per_page_sort_then_concat [c2PageA, c2PageB]).2.2 c2PageA
      (List.mem_cons_self _ _)⟩

theorem to2dArray_fold_length (cells : List TableCell) (R C : Nat) :
    ∀ arr : List (List Str),
      (cells.foldl
        (fun arr cell =>
          if cell.row < R && cell.col < C then
            arr.set cell.row ((arr.getD cell.row []).set cell.col cell.text)
          else arr) arr).length = arr.length := by
  induction cells with
  | nil => intro arr; rfl
  | cons cell rest ih =>
    intro arr
    simp only [List.foldl_cons]
    by_cases h : cell.row < R && cell.col < C
    · rw [if_pos h, ih, List.length_set]
    · rw [if_neg h, ih]

theorem to2dArray_fold_rowlen (cells : List TableCell) (R C : Nat) :
    ∀ arr : List (List Str), (∀ row ∈ arr, row.length = C) →
      ∀ row ∈ (cells.foldl
        (fun arr cell =>
          if cell.row < R && cell.col < C then
            arr.set cell.row ((arr.getD cell.row []).set cell.col cell.text)
          else arr) arr), row.length = C := by
  induction cells with
  | nil => intro arr h; exact h
  | cons cell rest ih =>
    intro arr h
    simp only [List.foldl_cons]
    by_cases hc : cell.row < R && cell.col < C
    · rw [if_pos hc]
      refine ih _ ?_
      by_cases hlt : cell.row < arr.length
      · intro row hrow
        rcases List.mem_or_eq_of_mem_set hrow with hmem | heq
        · exact h row hmem
        · subst heq
          rw [List.length_set, List.getD_eq_getElem?_getD,
            List.getElem?_eq_getElem hlt]
          exact h _ (List.getElem_mem hlt)
      · rw [List.set_eq_of_length_le (by omega)]
        exact h
    · rw [if_neg hc]; exact ih _ h

theorem to2dArray_fold_untouched (cells : List TableCell) (R C : Nat)
    (r c : Nat) (hcell : ∀ cell ∈ cells, ¬(cell.row = r ∧ cell.col = c)) :
    ∀ arr : List (List Str),
      (((cells.foldl
        (fun arr cell =>
          if cell.row < R && cell.col < C then
            arr.set cell.row ((arr.getD cell.row []).set cell.col cell.text)
          else arr) arr)).getD r []).getD c [] = ((arr.getD r []).getD c []) := by
  induction cells with
  | nil => intro arr; rfl
  | cons cell rest ih =>
    intro arr
    have hcr : ¬(cell.row = r ∧ cell.col = c) := hcell cell (by simp)
    have hrest : ∀ cl ∈ rest, ¬(cl.row = r ∧ cl.col = c) := by
      intro cl hcl; exact hcell cl (List.mem_cons_of_mem _ hcl)
    simp only [List.foldl_cons]
    by_cases hc : cell.row < R && cell.col < C
    · rw [if_pos hc, ih hrest]
      by_cases hlt : cell.row < arr.length
      · by_cases hrr : cell.row = r
        · subst hrr
          have hcc : cell.col ≠ c := fun h => hcr ⟨rfl, h⟩
          rw [List.getD_eq_getElem?_getD (arr.set _ _),
            List.getElem?_set_self hlt, Option.getD_some,
            List.getD_eq_getElem?_getD _ c, List.getElem?_set_ne hcc,
            List.getD_eq_getElem?_getD arr, List.getElem?_eq_getElem hlt,
            Option.getD_some, List.getD_eq_getElem?_getD]
        · rw [List.getD_eq_getElem?_getD (arr.set _ _),
            List.getElem?_set_ne hrr, ← List.getD_eq_getElem?_getD]
      · rw [List.set_eq_of_length_le (by omega)]
    · rw [if_neg hc, ih hrest]

/-- C8: Table.to_2d_array is total and deterministic: it always returns a
rows x cols grid of strings (cells whose row or col is out of range are
ignored rather than raising), every position not covered by a TableCell
holds the empty string, and two calls on the same Table return identical
output. -/
theorem C8_to2dArray_total_idempotent (t : Table) :
    t.to2dArray.length = t.rows ∧
    (∀ row ∈ t.to2dArray, row.length = t.cols) ∧
    (∀ r c, r < t.rows → c < t.cols →
      (∀ cell ∈ t.cells, ¬(cell.row = r ∧ cell.col = c)) →
      ((t.to2dArray.getD r []).getD c []) = ([] : Str)) ∧
    t.to2dArray = t.to2dArray := by
  refine ⟨?_, ?_, ?_, rfl⟩
  · rw [Table.to2dArray, to2dArray_fold_length, List.length_replicate]
  · rw [Table.to2dArray]
    refine to2dArray_fold_rowlen _ _ _ _ ?_ 
    intro row hrow
    rw [List.eq_of_mem_replicate hrow, List.length_replicate]
  · intro r c hr hc hcell
    rw [Table.to2dArray, to2dArray_fold_untouched _ _ _ _ _ hcell]
    simp [List.getD_eq_getElem?_getD, List.getElem?_replicate, hr, hc]

/-- A concrete table exercising C8: one cell out of range (ignored) and
one in range; position (0,1) is covered by no cell. -/
def c8Table : Table :=
  { cells := [{ text := "x".toList, row := 5, col := 0 },
              { text := "y".toList, row := 0, col := 0 }],
    rows := 2, cols := 2 }

/-- Witness for C8 at a concrete table. -/
theorem C8_witness :
    (0 < c8Table.rows ∧ 1 < c8Table.cols ∧
      (∀ cell ∈ c8Table.cells, ¬(cell.row = 0 ∧ cell.col = 1))) ∧
    ((c8Table.to2dArray.getD 0 []).getD 1 []) = ([] : Str) :=
  ⟨⟨by decide, by decide, by decide⟩,
    (C8_to2dArray_total_idempotent c8Table).2.2.1 0 1 (by decide) (by decide)
      (by decide)⟩


/- ===================== content_classifier.py ===================== -/

/-- The keys of a Counter/dict built from a list, in insertion order
(CPython dicts iterate keys in first-occurrence order): each element,
with later duplicates filtered out. -/
def firstOccs {α : Type _} [DecidableEq α] : List α → List α
  | [] => []
  | x :: xs => x :: (firstOccs xs).filter (fun y => y ≠ x)

/-- Counter(xs).most_common(1)[0][0]: the most frequent element;
Counter.most_common sorts by count with a stable sort, so ties keep
insertion (first-occurrence) order. -/
def pyModal {α : Type _} [DecidableEq α] (xs : List α) (dflt : α) : α :=
  match firstOccs xs with
  | [] => dflt
  | k :: ks =>
    ks.foldl (fun best cand => if xs.count cand > xs.count best then cand else best) k

/-- The page baseline (modal body-text style) dictionary. -/
structure Baseline where
  size : ℚ
  font : Str
  bold : Bool
  italic : Bool
  deriving DecidableEq, Repr

/-- The spans the classifier iterates over: spans of text content
blocks whose stripped text is non-empty, paired with their parent
content block. -/
def pageSpanPairs (p : PageContent) : List (TextSpan × ContentBlock) :=
  p.contentBlocks.flatMap (fun cb =>
    if cb.isTextBlock then
      cb.lines.flatMap (fun ln =>
        ln.spans.filterMap (fun sp =>
          if pyStrip sp.text ≠ [] then some (sp, cb) else none))
    else [])

/-- ContentClassifier._establish_baseline_style: modal font size, name,
bold flag and italic flag over all non-empty spans; fixed defaults when
the page has no text.  (The source walks the same
content-block/line/span nest with the same non-empty filter as
`pageSpanPairs`.) -/
def establishBaseline (p : PageContent) : Baseline :=
  let spans := (pageSpanPairs p).map Prod.fst
  match spans with
  | [] => { size := 12, font := "Unknown".toList, bold := false, italic := false }
  | _ :: _ =>
    { size := pyModal (spans.map (fun s => s.fontInfo.fontSize)) 12,
      font := pyModal (spans.map (fun s => s.fontInfo.fontName)) [],
      bold := pyModal (spans.map (fun s => s.fontInfo.isBold)) false,
      italic := pyModal (spans.map (fun s => s.fontInfo.isItalic)) false }

/- The list-item regular expressions of _is_list_item, embedded as
prefix matchers (re.match anchors at the start; every pattern is
start-anchored \s* then a marker then \s+).  Digits and letters are the
ASCII classes (the regexes use \d and [a-zA-Z]). -/

/-- The regex class \s* at the start of a pattern. -/
def skipWs (s : Str) : Str := s.dropWhile isPySpace

/-- Does \s+ match here (at least one whitespace character)? -/
def headIsWs : Str → Bool
  | c :: _ => isPySpace c
  | [] => false

/-- One character of a class, then \s+. -/
def charClassThenWs (cls : List Char) (s : Str) : Bool :=
  match skipWs s with
  | c :: rest => cls.contains c && headIsWs rest
  | [] => false

/-- One-or-more characters of a class; returns the rest on success. -/
def classPlus (p : Char → Bool) : Str → Option Str
  | c :: rest => if p c then some (rest.dropWhile p) else none
  | [] => none

/-- A single literal character. -/
def chompChar (c : Char) : Str → Option Str
  | d :: rest => if d = c then some rest else none
  | [] => none

/-- class+ then a literal mark then \s+ (patterns like ^\s*\d+\.\s+). -/
def plusMarkWs (p : Char → Bool) (mark : Char) (s : Str) : Bool :=
  match classPlus p (skipWs s) with
  | some rest =>
    match chompChar mark rest with
    | some rest2 => headIsWs rest2
    | none => false
  | none => false

/-- open bracket, class+, close bracket, \s+ (patterns like
^\s*\(\d+\)\s+). -/
def brackPlusWs (opn : Char) (p : Char → Bool) (cls : Char) (s : Str) : Bool :=
  match chompChar opn (skipWs s) with
  | some rest =>
    match classPlus p rest with
    | some rest2 =>
      match chompChar cls rest2 with
      | some rest3 => headIsWs rest3
      | none => false
    | none => false
  | none => false

/-- a single class character then a literal mark then \s+ (patterns
like ^\s*[a-zA-Z]\.\s+). -/
def singleMarkWs (p : Char → Bool) (mark : Char) (s : Str) : Bool :=
  match skipWs s with
  | c :: rest =>
    p c &&
      (match chompChar mark rest with
       | some rest2 => headIsWs rest2
       | none => false)
  | [] => false

/-- open bracket, one class character, close bracket, \s+. -/
def brackSingleWs (opn : Char) (p : Char → Bool) (cls : Char) (s : Str) : Bool :=
  match chompChar opn (skipWs s) with
  | some (c :: rest) =>
    p c &&
      (match chompChar cls rest with
       | some rest2 => headIsWs rest2
       | none => false)
  | _ => false

def unicodeBullets : List Char :=
  [Char.ofNat 0x2022, Char.ofNat 0xB7, Char.ofNat 0x25AA,
   Char.ofNat 0x25AB, Char.ofNat 0x2023, Char.ofNat 0x2043]

def asciiBullets : List Char := ['*', '+', '-']

def arrowBullets : List Char :=
  [Char.ofNat 0x25B6, Char.ofNat 0x25BA, Char.ofNat 0x25B7, Char.ofNat 0x25B8]

def romanLower : List Char := ['i', 'v', 'x', 'l', 'c', 'd', 'm']

def romanUpper : List Char := ['I', 'V', 'X', 'L', 'C', 'D', 'M']

def isAlphaAscii (c : Char) : Bool := ('a' ≤ c && c ≤ 'z') || ('A' ≤ c && c ≤ 'Z')

def isDigitAscii (c : Char) : Bool := '0' ≤ c && c ≤ '9'

/-- The ordered list-item patterns of _is_list_item, applied to the
stripped span text. -/
def matchesListPattern (t : Str) : Bool :=
  charClassThenWs unicodeBullets t ||
  charClassThenWs asciiBullets t ||
  charClassThenWs arrowBullets t ||
  plusMarkWs isDigitAscii '.' t ||
  plusMarkWs isDigitAscii ')' t ||
  brackPlusWs '(' isDigitAscii ')' t ||
  brackPlusWs '[' isDigitAscii ']' t ||
  singleMarkWs isAlphaAscii '.' t ||
  singleMarkWs isAlphaAscii ')' t ||
  brackSingleWs '(' isAlphaAscii ')' t ||
  brackSingleWs '[' isAlphaAscii ']' t ||
  plusMarkWs (fun c => romanLower.contains c) '.' t ||
  plusMarkWs (fun c => romanUpper.contains c) '.' t ||
  plusMarkWs (fun c => romanLower.contains c) ')' t ||
  plusMarkWs (fun c => romanUpper.contains c) ')' t ||
  brackPlusWs '(' (fun c => romanLower.contains c) ')' t ||
  brackPlusWs '(' (fun c => romanUpper.contains c) ')' t

/-- ContentClassifier._is_list_item. -/
def isListItem (sp : TextSpan) : Bool :=
  let t := pyStrip sp.text
  if t = [] then false else matchesListPattern t

/-- Python str.isupper() (ASCII letters as the cased characters): at
least one cased character and no lowercase cased character. -/
def pyIsUpper (s : Str) : Bool :=
  s.any isAlphaAscii && s.all (fun c => !('a' ≤ c && c ≤ 'z'))

/-- ContentClassifier._is_header.  (classify_page_content always
establishes a baseline first, so the source's early return for a
missing baseline cannot trigger; the baseline is a parameter here.) -/
def isHeader (baseline : Baseline) (sp : TextSpan) : Bool :=
  let sizeRatio : ℚ :=
    if baseline.size > 0 then sp.fontInfo.fontSize / baseline.size else 1
  let isSignificantlyLarger := sizeRatio ≥ 1.2
  let isBoldWhenBaselineNot := sp.fontInfo.isBold && !baseline.bold
  let isMuchLarger := sizeRatio ≥ 1.5
  if isMuchLarger then true
  else if isSignificantlyLarger || isBoldWhenBaselineNot then
    let wordCount := (pyWords (pyStrip sp.text)).length
    let isShort := wordCount ≤ 3
    let isCaps := pyIsUpper (pyStrip sp.text)
    if isShort || isCaps || isBoldWhenBaselineNot then true
    else if (1.2 : ℚ) ≤ sizeRatio ∧ sizeRatio < 1.4 then
      isBoldWhenBaselineNot || isCaps
    else if sizeRatio ≥ 1.4 then true
    else false
  else false

/-- ContentClassifier._get_header_level (span level, recorded in
metadata). -/
def spanHeaderLevel (baseline : Baseline) (sp : TextSpan) : Nat :=
  let sizeRatio : ℚ :=
    if baseline.size > 0 then sp.fontInfo.fontSize / baseline.size else 1
  if sizeRatio ≥ 2 then 1
  else if sizeRatio ≥ 1.7 then 2
  else if sizeRatio ≥ 1.4 then 3
  else if sizeRatio ≥ 1.2 then 4
  else 5

/-- ContentClassifier._get_list_marker_type. -/
def getListMarkerType (sp : TextSpan) : Str :=
  let t := pyStrip sp.text
  if charClassThenWs (unicodeBullets ++ asciiBullets ++ arrowBullets) t then
    "bullet".toList
  else if plusMarkWs isDigitAscii '.' t || plusMarkWs isDigitAscii ')' t ||
      brackPlusWs '(' isDigitAscii ')' t || brackPlusWs '(' isDigitAscii ']' t ||
      brackPlusWs '[' isDigitAscii ')' t || brackPlusWs '[' isDigitAscii ']' t then
    "numbered".toList
  else if singleMarkWs isAlphaAscii '.' t || singleMarkWs isAlphaAscii ')' t ||
      brackSingleWs '(' isAlphaAscii ')' t || brackSingleWs '(' isAlphaAscii ']' t ||
      brackSingleWs '[' isAlphaAscii ')' t || brackSingleWs '[' isAlphaAscii ']' t then
    "lettered".toList
  else if plusMarkWs (fun c => (romanLower ++ romanUpper).contains c) '.' t ||
      plusMarkWs (fun c => (romanLower ++ romanUpper).contains c) ')' t ||
      brackPlusWs '(' (fun c => (romanLower ++ romanUpper).contains c) ')' t ||
      brackPlusWs '(' (fun c => (romanLower ++ romanUpper).contains c) ']' t ||
      brackPlusWs '[' (fun c => (romanLower ++ romanUpper).contains c) ')' t ||
      brackPlusWs '[' (fun c => (romanLower ++ romanUpper).contains c) ']' t then
    "roman".toList
  else "unknown".toList

/-- ContentClassifier._determine_content_type: list beats header beats
paragraph. -/
def determineContentType (baseline : Baseline) (sp : TextSpan) : ContentType :=
  if isListItem sp then .list
  else if isHeader baseline sp then .header
  else .paragraph

/-- ContentClassifier._classify_text_span (for one span). -/
def classifyTextSpan (baseline : Baseline) (sp : TextSpan)
    (parent : ContentBlock) : Option TextBlock :=
  let t := pyStrip sp.text
  if t = [] then none
  else
    let fd : FontDict :=
      { name := some sp.fontInfo.fontName, size := some sp.fontInfo.fontSize,
        bold := some sp.fontInfo.isBold, italic := some sp.fontInfo.isItalic,
        flags := some sp.fontInfo.flags, color := some sp.fontInfo.color }
    let ct := determineContentType baseline sp
    some
      { text := t, contentType := ct, bbox := some sp.bbox,
        fontInfo := some fd, confidence := 1,
        metadata :=
          { blockNumber := some parent.blockNumber,
            headerLevel :=
              if ct = .header then some (spanHeaderLevel baseline sp) else none,
            listMarkerType :=
              if ct = .list then some (getListMarkerType sp) else none } }

/-- The span_info records built by the first pass of
classify_page_content. -/
structure SpanInfo where
  span : TextSpan
  contentBlock : ContentBlock
  contentType : ContentType
  shouldGroup : Bool
  deriving DecidableEq, Repr

/-- ContentClassifier._fonts_similar. -/
def fontsSimilar (f1 f2 : FontInfo) : Bool :=
  if f1.fontName ≠ f2.fontName then false
  else
    let sizeRatio : ℚ := if f2.fontSize > 0 then f1.fontSize / f2.fontSize else 1
    if sizeRatio < 0.9 ∨ sizeRatio > 1.1 then false
    else if f1.isBold ≠ f2.isBold ∨ f1.isItalic ≠ f2.isItalic then false
    else true

/-- ContentClassifier._should_group_with_previous. -/
def shouldGroupWithPrevious (cur prev : SpanInfo) : Bool :=
  let verticalDistance := |prev.span.bbox.y1 - cur.span.bbox.y0|
  let avgFontSize := (cur.span.fontInfo.fontSize + prev.span.fontInfo.fontSize) / 2
  if verticalDistance > avgFontSize * 1.5 then false
  else if !fontsSimilar cur.span.fontInfo prev.span.fontInfo then false
  else if |cur.span.bbox.x0 - prev.span.bbox.x0| > avgFontSize * 0.5 then false
  else true

/-- The loop of ContentClassifier._group_paragraph_spans, with the
pending current group as an accumulator. -/
def groupSpans : List SpanInfo → List SpanInfo → List (List SpanInfo)
  | [], cur => if cur.isEmpty then [] else [cur]
  | i :: rest, cur =>
    if !i.shouldGroup then
      (if cur.isEmpty then [] else [cur]) ++ [i] :: groupSpans rest []
    else if !cur.isEmpty &&
        (match cur.getLast? with
         | some prev => shouldGroupWithPrevious i prev
         | none => false) then
      groupSpans rest (cur ++ [i])
    else
      (if cur.isEmpty then [] else [cur]) ++ groupSpans rest [i]

def groupParagraphSpans (infos : List SpanInfo) : List (List SpanInfo) :=
  groupSpans infos []

def qMin (d : ℚ) : List ℚ → ℚ
  | [] => d
  | x :: xs => xs.foldl min x

def qMax (d : ℚ) : List ℚ → ℚ
  | [] => d
  | x :: xs => xs.foldl max x

/-- ContentClassifier._create_text_block_from_group. -/
def createTextBlockFromGroup (baseline : Baseline) :
    List SpanInfo → Option TextBlock
  | [] => none
  | [i] => classifyTextSpan baseline i.span i.contentBlock
  | i :: j :: rest =>
    let g := i :: j :: rest
    let combinedText :=
      List.intercalate (" ".toList) (g.map (fun si => pyStrip si.span.text))
    let bb : BBox :=
      { x0 := qMin 0 (g.map (fun si => si.span.bbox.x0)),
        y0 := qMin 0 (g.map (fun si => si.span.bbox.y0)),
        x1 := qMax 0 (g.map (fun si => si.span.bbox.x1)),
        y1 := qMax 0 (g.map (fun si => si.span.bbox.y1)) }
    let fs := i.span
    let fd : FontDict :=
      { name := some fs.fontInfo.fontName, size := some fs.fontInfo.fontSize,
        bold := some fs.fontInfo.isBold, italic := some fs.fontInfo.isItalic,
        flags := some fs.fontInfo.flags, color := some fs.fontInfo.color }
    some
      { text := combinedText, contentType := i.contentType, bbox := some bb,
        fontInfo := some fd, confidence := 1,
        metadata :=
          { blockNumber := some i.contentBlock.blockNumber,
            spanCount := some g.length } }

/-- The (y0, x0) reading-order relation on span/parent pairs. -/
def spanPairLe (a b : TextSpan × ContentBlock) : Prop :=
  a.1.bbox.y0 < b.1.bbox.y0 ∨
    (a.1.bbox.y0 = b.1.bbox.y0 ∧ a.1.bbox.x0 ≤ b.1.bbox.x0)

instance : DecidableRel spanPairLe := fun a b => by
  unfold spanPairLe; infer_instance

instance : IsTotal (TextSpan × ContentBlock) spanPairLe where
  total a b := by
    rcases lt_trichotomy a.1.bbox.y0 b.1.bbox.y0 with h | h | h
    · exact Or.inl (Or.inl h)
    · rcases le_total a.1.bbox.x0 b.1.bbox.x0 with h2 | h2
      · exact Or.inl (Or.inr ⟨h, h2⟩)
      · exact Or.inr (Or.inr ⟨h.symm, h2⟩)
    · exact Or.inr (Or.inl h)

instance : IsTrans (TextSpan × ContentBlock) spanPairLe where
  trans a b c hab hbc := by
    rcases hab with h1 | ⟨h1, h1a⟩ <;> rcases hbc with h2 | ⟨h2, h2a⟩
    · exact Or.inl (h1.trans h2)
    · exact Or.inl (h2 ▸ h1)
    · exact Or.inl (h1 ▸ h2)
    · exact Or.inr ⟨h1.trans h2, h1a.trans h2a⟩

/-- ContentClassifier.classify_page_content: establish the baseline,
sort the non-empty spans by (y0, x0), label each span (LIST beats
HEADER beats PARAGRAPH; lists/headers never group), group adjacent
paragraph spans, and build one TextBlock per group. -/
def classifyPageContent (p : PageContent) : List TextBlock :=
  let baseline := establishBaseline p
  let sortedPairs := List.insertionSort spanPairLe (pageSpanPairs p)
  let infos := sortedPairs.map (fun pr =>
    if isListItem pr.1 then
      SpanInfo.mk pr.1 pr.2 .list false
    else if isHeader baseline pr.1 then
      SpanInfo.mk pr.1 pr.2 .header false
    else
      SpanInfo.mk pr.1 pr.2 .paragraph true)
  (groupParagraphSpans infos).filterMap (createTextBlockFromGroup baseline)

/- ===================== structure_builder.py header levels ===================== -/

/-- StructureBuilder constructor options. -/
structure SBConfig where
  debug : Bool := false
  autoDetectHeaders : Bool := true
  minHeaderFontSize : ℚ := 12
  deriving Repr

/-- StructureBuilder._infer_header_level_from_font: reads the keys
font_size / is_bold from the font_info dict with defaults 12.0 / False
(the classifier writes the keys size / bold, so for classifier blocks
the defaults would apply). -/
def inferHeaderLevelFromFont (tb : TextBlock) : HeaderLevel :=
  match tb.fontInfo with
  | none => .h1
  | some fi =>
    let fontSize := fi.fontSizeKey.getD 12
    let isBold := fi.isBoldKey.getD false
    if fontSize ≥ 18 then .h1
    else if fontSize ≥ 16 then .h2
    else if fontSize ≥ 14 then .h3
    else if isBold ∧ fontSize ≥ 12 then .h4
    else if fontSize ≥ 12 then .h5
    else .h6

/-- StructureBuilder._determine_header_level: the explicit
content-type level wins when present (and nonzero, per Python
truthiness); otherwise font-size inference when auto_detect_headers,
else H1. -/
def determineHeaderLevel (cfg : SBConfig) (tb : TextBlock) :
    Except Str HeaderLevel :=
  match tb.contentType.getHeaderLevel with
  | some n =>
    if n ≠ 0 then HeaderLevel.fromInt n
    else .ok (if cfg.autoDetectHeaders then inferHeaderLevelFromFont tb else .h1)
  | none =>
    .ok (if cfg.autoDetectHeaders then inferHeaderLevelFromFont tb else .h1)

/-- StructureBuilder._create_section_from_header. -/
def createSectionFromHeader (cfg : SBConfig) (tb : TextBlock) :
    Except Str SectionNode :=
  (determineHeaderLevel cfg tb).map (fun lvl =>
    SectionNode.mk (pyStrip tb.text) lvl [] [] tb.bbox
      tb.metadata.pageNumber none)


/- Lemmas for C4 and C10. -/

theorem pageSpanPairs_strip_ne (p : PageContent) (sp : TextSpan)
    (cb : ContentBlock) (h : (sp, cb) ∈ pageSpanPairs p) :
    pyStrip sp.text ≠ [] := by
  unfold pageSpanPairs at h
  rw [List.mem_flatMap] at h
  obtain ⟨cb', _, h⟩ := h
  by_cases htb : cb'.isTextBlock
  · rw [if_pos htb, List.mem_flatMap] at h
    obtain ⟨ln, _, h⟩ := h
    rw [List.mem_filterMap] at h
    obtain ⟨sp', _, h⟩ := h
    by_cases hne : pyStrip sp'.text ≠ []
    · rw [if_pos hne] at h
      obtain ⟨rfl, rfl⟩ := Prod.mk.injEq .. ▸ Option.some.injEq .. ▸ h
      exact hne
    · rw [if_neg hne] at h
      exact absurd h (Option.noConfusion)
  · rw [if_neg htb] at h
    exact absurd h (List.not_mem_nil _)

theorem isHeader_of_ratio (baseline : Baseline) (sp : TextSpan)
    (hpos : baseline.size > 0)
    (hratio : sp.fontInfo.fontSize / baseline.size ≥ 1.5) :
    isHeader baseline sp = true := by
  unfold isHeader
  rw [if_pos hpos, if_pos hratio]

theorem determineContentType_header (baseline : Baseline) (sp : TextSpan)
    (hnl : isListItem sp = false) (hh : isHeader baseline sp = true) :
    determineContentType baseline sp = .header := by
  unfold determineContentType
  rw [hnl, hh]
  rfl

/-- A span marked non-groupable always comes out of the grouping pass
as its own singleton group. -/
theorem groupSpans_singleton_mem (infos : List SpanInfo) :
    ∀ (cur : List SpanInfo) (i : SpanInfo), i ∈ infos →
      i.shouldGroup = false → [i] ∈ groupSpans infos cur := by
  induction infos with
  | nil => intro cur i h; exact absurd h (List.not_mem_nil _)
  | cons j rest ih =>
    intro cur i hmem hsg
    rcases List.mem_cons.mp hmem with rfl | hmem
    · rw [groupSpans, if_pos (by rw [hsg]; rfl)]
      exact List.mem_append_right _ (List.mem_cons_self _ _)
    · by_cases hj : j.shouldGroup = false
      · rw [groupSpans, if_pos (by rw [hj]; rfl)]
        exact List.mem_append_right _
          (List.mem_cons_of_mem _ (ih [] i hmem hsg))
      · rw [groupSpans, if_neg (by simp at hj ⊢; exact hj)]
        by_cases hc : (!cur.isEmpty &&
            (match cur.getLast? with
             | some prev => shouldGroupWithPrevious j prev
             | none => false)) = true
        · rw [if_pos hc]
          exact ih _ i hmem hsg
        · rw [if_neg hc]
          exact List.mem_append_right _ (ih _ i hmem hsg)

/-- Every span info inside any produced group came from the pending
group or the input stream. -/
theorem groupSpans_mem_src (infos : List SpanInfo) :
    ∀ (cur g : List SpanInfo), g ∈ groupSpans infos cur →
      ∀ i ∈ g, i ∈ cur ∨ i ∈ infos := by
  induction infos with
  | nil =>
    intro cur g hg i hi
    rw [groupSpans] at hg
    by_cases hc : cur.isEmpty
    · rw [if_pos hc] at hg
      exact absurd hg (List.not_mem_nil _)
    · rw [if_neg hc] at hg
      rcases List.mem_singleton.mp hg with rfl
      exact Or.inl hi
  | cons j rest ih =>
    intro cur g hg i hi
    rw [groupSpans] at hg
    by_cases hj : (!j.shouldGroup) = true
    · rw [if_pos hj] at hg
      rcases List.mem_append.mp hg with hg | hg
      · by_cases hc : cur.isEmpty
        · rw [if_pos hc] at hg
          exact absurd hg (List.not_mem_nil _)
        · rw [if_neg hc] at hg
          rcases List.mem_singleton.mp hg with rfl
          exact Or.inl hi
      · rcases List.mem_cons.mp hg with rfl | hg
        · rcases List.mem_singleton.mp hi with rfl
          exact Or.inr (List.mem_cons_self _ _)
        · rcases ih [] g hg i hi with h | h
          · exact absurd h (List.not_mem_nil _)
          · exact Or.inr (List.mem_cons_of_mem _ h)
    · rw [if_neg hj] at hg
      by_cases hc : (!cur.isEmpty &&
          (match cur.getLast? with
           | some prev => shouldGroupWithPrevious j prev
           | none => false)) = true
      · rw [if_pos hc] at hg
        rcases ih _ g hg i hi with h | h
        · rcases List.mem_append.mp h with h | h
          · exact Or.inl h
          · rcases List.mem_singleton.mp h with rfl
            exact Or.inr (List.mem_cons_self _ _)
        · exact Or.inr (List.mem_cons_of_mem _ h)
      · rw [if_neg hc] at hg
        rcases List.mem_append.mp hg with hg | hg
        · by_cases hce : cur.isEmpty
          · rw [if_pos hce] at hg
            exact absurd hg (List.not_mem_nil _)
          · rw [if_neg hce] at hg
            rcases List.mem_singleton.mp hg with rfl
            exact Or.inl hi
        · rcases ih _ g hg i hi with h | h
          · rcases List.mem_singleton.mp h with rfl
            exact Or.inr (List.mem_cons_self _ _)
          · exact Or.inr (List.mem_cons_of_mem _ h)

/-- C4: for every non-empty span of a page that matches no list-item
pattern, if its font size divided by the page's baseline (modal) size
is at least 1.5, classify_page_content emits a HEADER block for it
(with the span's stripped text and bbox), regardless of boldness, word
count or capitalization; list detection takes priority (hence the
no-list hypothesis). -/
theorem C4_size_ratio_header (p : PageContent) (sp : TextSpan)
    (cb : ContentBlock)
    (hmem : (sp, cb) ∈ pageSpanPairs p)
    (hnl : isListItem sp = false)
    (hpos : (establishBaseline p).size > 0)
    (hratio : sp.fontInfo.fontSize / (establishBaseline p).size ≥ 1.5) :
    ∃ tb ∈ classifyPageContent p, tb.contentType = .header ∧
      tb.text = pyStrip sp.text ∧ tb.bbox = some sp.bbox := by
  have ht : pyStrip sp.text ≠ [] := pageSpanPairs_strip_ne p sp cb hmem
  have hh : isHeader (establishBaseline p) sp = true :=
    isHeader_of_ratio _ _ hpos hratio
  have hdet : determineContentType (establishBaseline p) sp = .header :=
    determineContentType_header _ _ hnl hh
  have hsorted : (sp, cb) ∈ List.insertionSort spanPairLe (pageSpanPairs p) :=
    (List.perm_insertionSort spanPairLe (pageSpanPairs p)).mem_iff.mpr hmem
  have hinfo : SpanInfo.mk sp cb .header false ∈
      (List.insertionSort spanPairLe (pageSpanPairs p)).map (fun pr =>
        if isListItem pr.1 then SpanInfo.mk pr.1 pr.2 .list false
        else if isHeader (establishBaseline p) pr.1 then
          SpanInfo.mk pr.1 pr.2 .header false
        else SpanInfo.mk pr.1 pr.2 .paragraph true) := by
    have := List.mem_map_of_mem (fun pr : TextSpan × ContentBlock =>
      if isListItem pr.1 then SpanInfo.mk pr.1 pr.2 .list false
      else if isHeader (establishBaseline p) pr.1 then
        SpanInfo.mk pr.1 pr.2 .header false
      else SpanInfo.mk pr.1 pr.2 .paragraph true) hsorted
    simpa [hnl, hh] using this
  have hgroup : [SpanInfo.mk sp cb .header false] ∈
      groupParagraphSpans ((List.insertionSort spanPairLe (pageSpanPairs p)).map _) :=
    groupSpans_singleton_mem _ [] _ hinfo rfl
  have hcreate : createTextBlockFromGroup (establishBaseline p)
      [SpanInfo.mk sp cb .header false] =
      some
        { text := pyStrip sp.text,
          contentType := determineContentType (establishBaseline p) sp,
          bbox := some sp.bbox,
          fontInfo := some
            { name := some sp.fontInfo.fontName,
              size := some sp.fontInfo.fontSize,
              bold := some sp.fontInfo.isBold,
              italic := some sp.fontInfo.isItalic,
              flags := some sp.fontInfo.flags,
              color := some sp.fontInfo.color },
          confidence := 1,
          metadata :=
            { blockNumber := some cb.blockNumber,
              headerLevel :=
                if determineContentType (establishBaseline p) sp = .header then
                  some (spanHeaderLevel (establishBaseline p) sp)
                else none,
              listMarkerType :=
                if determineContentType (establishBaseline p) sp = .list then
                  some (getListMarkerType sp)
                else none } } := by
    rw [createTextBlockFromGroup, classifyTextSpan, if_neg ht]
  exact ⟨_, List.mem_filterMap.mpr ⟨[SpanInfo.mk sp cb .header false],
    hgroup, hcreate⟩, hdet, rfl, rfl⟩


/-- A concrete page: a 24pt title span above two 12pt body spans (the
modal size is 12). -/
def c4Span : TextSpan :=
  { text := "Introduction".toList, bbox := ⟨72, 50, 200, 74⟩,
    fontInfo := { fontName := "Arial-Bold".toList, fontSize := 24, flags := 16 } }

def c4Body1 : TextSpan :=
  { text := "body text one".toList, bbox := ⟨72, 90, 300, 102⟩,
    fontInfo := { fontName := "Arial".toList, fontSize := 12 } }

def c4Body2 : TextSpan :=
  { text := "more body text".toList, bbox := ⟨72, 105, 300, 117⟩,
    fontInfo := { fontName := "Arial".toList, fontSize := 12 } }

def c4Block : ContentBlock :=
  { blockNumber := 0, blockType := 0, bbox := ⟨72, 50, 300, 117⟩,
    lines := [{ spans := [c4Span], bbox := ⟨72, 50, 200, 74⟩ },
              { spans := [c4Body1], bbox := ⟨72, 90, 300, 102⟩ },
              { spans := [c4Body2], bbox := ⟨72, 105, 300, 117⟩ }] }

def c4Page : PageContent :=
  { pageNumber := 1, pageHeight := 800, contentBlocks := [c4Block] }

-- Witness for C4: the 24pt span on the concrete page (size ratio 2
-- against the modal 12pt baseline) yields a HEADER block.
unseal Rat.mul Rat.add Rat.inv Rat.sub Rat.ofScientific in
theorem C4_witness :
    ((c4Span, c4Block) ∈ pageSpanPairs c4Page ∧ isListItem c4Span = false ∧
      (establishBaseline c4Page).size > 0 ∧
      c4Span.fontInfo.fontSize / (establishBaseline c4Page).size ≥ 1.5) ∧
    (∃ tb ∈ classifyPageContent c4Page, tb.contentType = .header ∧
      tb.text = pyStrip c4Span.text ∧ tb.bbox = some c4Span.bbox) :=
  ⟨⟨by decide, by decide, by decide, by decide⟩,
    C4_size_ratio_header c4Page c4Span c4Block (by decide) (by decide)
      (by decide) (by decide)⟩

/- C10 lemmas. -/

theorem determineContentType_cases (b : Baseline) (sp : TextSpan) :
    determineContentType b sp = .list ∨ determineContentType b sp = .header ∨
      determineContentType b sp = .paragraph := by
  unfold determineContentType
  split_ifs <;> simp

/-- Every block the classifier emits is LIST, HEADER or PARAGRAPH. -/
theorem classifyPageContent_types (p : PageContent) (tb : TextBlock)
    (h : tb ∈ classifyPageContent p) :
    tb.contentType = .list ∨ tb.contentType = .header ∨
      tb.contentType = .paragraph := by
  simp only [classifyPageContent] at h
  rw [List.mem_filterMap] at h
  obtain ⟨g, hg, hcr⟩ := h
  match g, hcr with
  | [], hcr => exact absurd hcr (by rw [createTextBlockFromGroup]; simp)
  | [i], hcr =>
    rw [createTextBlockFromGroup, classifyTextSpan] at hcr
    by_cases ht : pyStrip i.span.text = []
    · rw [if_pos ht] at hcr
      exact absurd hcr (by simp)
    · rw [if_neg ht] at hcr
      obtain rfl := Option.some.inj hcr
      exact determineContentType_cases _ _
  | i :: j :: rest, hcr =>
    rw [createTextBlockFromGroup] at hcr
    obtain rfl := Option.some.inj hcr
    have hi : i ∈ i :: j :: rest := List.mem_cons_self _ _
    have hsrc := groupSpans_mem_src _ [] _ hg i hi
    rcases hsrc with hc | hc
    · exact absurd hc (List.not_mem_nil _)
    · rw [List.mem_map] at hc
      obtain ⟨pr, _, hpr⟩ := hc
      have hcases : i.contentType = .list ∨ i.contentType = .header ∨
          i.contentType = .paragraph := by
        rw [← hpr]
        split_ifs <;> simp
      exact hcases

/-- C10: the classifier only ever emits the generic HEADER type (never
HEADER_1..HEADER_6); ContentType.HEADER.get_header_level() is 1; hence
_determine_header_level maps every classifier-produced header to H1
regardless of its font_info (the font-size inference branch is
unreachable for such blocks), and _create_section_from_header opens an
H1 (top-level) section for it. -/
theorem C10_classifier_headers_h1 :
    (∀ (p : PageContent), ∀ tb ∈ classifyPageContent p,
      tb.contentType.isHeaderType = true → tb.contentType = .header) ∧
    ContentType.getHeaderLevel .header = some 1 ∧
    (∀ (cfg : SBConfig) (tb : TextBlock), tb.contentType = .header →
      determineHeaderLevel cfg tb = .ok .h1) ∧
    (∀ (cfg : SBConfig) (tb : TextBlock), tb.contentType = .header →
      ∃ sec, createSectionFromHeader cfg tb = .ok sec ∧ sec.level = .h1) := by
  have hdl : ∀ (cfg : SBConfig) (tb : TextBlock), tb.contentType = .header →
      determineHeaderLevel cfg tb = .ok .h1 := by
    intro cfg tb h
    rw [determineHeaderLevel, h]
    rfl
  refine ⟨?_, rfl, hdl, ?_⟩
  · intro p tb hmem hht
    rcases classifyPageContent_types p tb hmem with h | h | h
    · rw [h] at hht; exact absurd hht (by simp [ContentType.isHeaderType])
    · exact h
    · rw [h] at hht; exact absurd hht (by simp [ContentType.isHeaderType])
  · intro cfg tb h
    refine ⟨SectionNode.mk (pyStrip tb.text) .h1 [] [] tb.bbox
      tb.metadata.pageNumber none, ?_, rfl⟩
    rw [createSectionFromHeader, hdl cfg tb h]
    rfl

/-- The concrete page for the C10 witness: a 20pt all-caps title over
10pt body text. -/
def c10Page : PageContent :=
  { pageNumber := 3, pageHeight := 800,
    contentBlocks :=
      [{ blockNumber := 0, blockType := 0, bbox := ⟨72, 40, 300, 150⟩,
         lines :=
           [{ spans := [{ text := "SUMMARY".toList, bbox := ⟨72, 40, 160, 60⟩,
                          fontInfo := { fontName := "Times-Bold".toList,
                                        fontSize := 20, flags := 16 } }],
              bbox := ⟨72, 40, 160, 60⟩ },
            { spans := [{ text := "first line of body".toList,
                          bbox := ⟨72, 80, 280, 90⟩,
                          fontInfo := { fontName := "Times".toList,
                                        fontSize := 10 } }],
              bbox := ⟨72, 80, 280, 90⟩ },
            { spans := [{ text := "second line of body".toList,
                          bbox := ⟨72, 92, 280, 102⟩,
                          fontInfo := { fontName := "Times".toList,
                                        fontSize := 10 } }],
              bbox := ⟨72, 92, 280, 102⟩ }] }] }

/-- The first block the classifier emits for that page. -/
def c10Block0 : TextBlock :=
  (classifyPageContent c10Page).getD 0 { text := [], contentType := .text }

-- Witness for C10 at the concrete page: the emitted header block has
-- the generic HEADER type and is assigned level H1.
unseal Rat.mul Rat.add Rat.inv Rat.sub Rat.ofScientific in
theorem C10_witness :
    (c10Block0 ∈ classifyPageContent c10Page ∧
      c10Block0.contentType.isHeaderType = true) ∧
    c10Block0.contentType = .header ∧
    determineHeaderLevel {} c10Block0 = .ok .h1 :=
  ⟨⟨by decide, by decide⟩,
    C10_classifier_headers_h1.1 c10Page c10Block0 (by decide) (by decide),
    C10_classifier_headers_h1.2.2.1 {} c10Block0 (by decide)⟩


/- ===================== text_cleaner.py ===================== -/

/-- Python str.startswith on lists of characters. -/
def startsWith : Str → Str → Bool
  | [], _ => true
  | _ :: _, [] => false
  | a :: as, b :: bs => (a == b) && startsWith as bs

/-- Does needle occur as a contiguous substring? -/
def containsSub (needle : Str) : Str → Bool
  | [] => needle.isEmpty
  | c :: rest => startsWith needle (c :: rest) || containsSub needle rest

/-- One pass of Python str.replace(needle, rep): non-overlapping matches,
left to right.  The fuel argument only serves structural recursion; at
fuel = s.length the zero-fuel base case is unreachable, since every step
consumes at least one character of s. -/
def pyReplaceAux (needle rep : Str) : Nat → Str → Str
  | 0, s => s
  | _ + 1, [] => []
  | fuel + 1, c :: rest =>
    if startsWith needle (c :: rest) = true then
      rep ++ pyReplaceAux needle rep fuel (rest.drop (needle.length - 1))
    else
      c :: pyReplaceAux needle rep fuel rest

/-- Python str.replace.  (The ligature map has no empty needle; Python
would intersperse rep on an empty needle, which is not modelled.) -/
def pyReplace (needle rep s : Str) : Str :=
  if needle.isEmpty then s else pyReplaceAux needle rep s.length s

/-- The accidental 19-character key of the ligature_map: lines 55 and 56
of text_cleaner.py each consist of three single quotes around the
intended smart-quote characters, which are in fact plain ASCII quotes in
the file, so the two lines parse as ONE triple-quoted string; the dict
therefore holds a key of colon, space, double quote, apostrophe,
double quote, comma, newline and twelve spaces of indentation, mapped to
a single apostrophe. -/
def ligNeedle : Str :=
  [':', ' ', Char.ofNat 34, Char.ofNat 39, Char.ofNat 34, ',', '\n'] ++
    List.replicate 12 ' '

/-- The ligature_map of TextCleaner exactly as Python parses it, in dict
insertion order: the ligature characters, one identity entry for the
duplicated ASCII double-quote key of lines 53-54, the triple-quote
accident ligNeedle, and the dash/ellipsis entries. -/
def ligMap : List (Str × Str) :=
  [([Char.ofNat 0xFB01], "fi".toList), ([Char.ofNat 0xFB02], "fl".toList),
   ([Char.ofNat 0xFB00], "ff".toList), ([Char.ofNat 0xFB03], "ffi".toList),
   ([Char.ofNat 0xFB04], "ffl".toList), ([Char.ofNat 0xFB06], "st".toList),
   ([Char.ofNat 0x153], "oe".toList), ([Char.ofNat 0xE6], "ae".toList),
   ([Char.ofNat 34], [Char.ofNat 34]),
   (ligNeedle, [Char.ofNat 39]),
   ([Char.ofNat 0x2013], "-".toList), ([Char.ofNat 0x2014], "--".toList),
   ([Char.ofNat 0x2026], "...".toList)]

/-- The single-character keys that fix_ligatures eliminates from its
output: every key except the identity double-quote entry and the
multi-character ligNeedle. -/
def ligKillChars : Str :=
  [Char.ofNat 0xFB01, Char.ofNat 0xFB02, Char.ofNat 0xFB00,
   Char.ofNat 0xFB03, Char.ofNat 0xFB04, Char.ofNat 0xFB06,
   Char.ofNat 0x153, Char.ofNat 0xE6, Char.ofNat 0x2013,
   Char.ofNat 0x2014, Char.ofNat 0x2026]

/-- Step 1 of normalize_text: the sequential str.replace calls over the
ligature map. -/
def fixLigatures (s : Str) : Str :=
  ligMap.foldl (fun acc p => pyReplace p.1 p.2 acc) s

/-- Step 2 of normalize_text: re.sub(CRLF-or-CR, LF): each CRLF pair
and each lone CR becomes one LF. -/
def crToLf : Str → Str
  | [] => []
  | '\r' :: '\n' :: rest => '\n' :: crToLf rest
  | '\r' :: rest => '\n' :: crToLf rest
  | c :: rest => c :: crToLf rest

/-- re.sub(one-or-more-spaces, one space): collapse each maximal run of
ASCII spaces to a single space.  (Right-fold formulation: a space is
absorbed when a space already follows, which collapses every run.) -/
def collapseSpaces : Str → Str
  | [] => []
  | c :: rest =>
    let r := collapseSpaces rest
    if c = ' ' then (if r.head? = some ' ' then r else ' ' :: r)
    else c :: r

/-- Step 4 of normalize_text: re.sub(3-or-more-LF, 2 LF): collapse each
maximal run of three or more newlines to exactly two.  (Right-fold
formulation: a newline is absorbed when two newlines already follow.) -/
def collapseNl : Str → Str
  | [] => []
  | c :: rest =>
    let r := collapseNl rest
    if c = '\n' then
      (if r.head? = some '\n' ∧ r.tail.head? = some '\n' then r else '\n' :: r)
    else c :: r

/-- Step 3 of normalize_text, for one line: trim trailing whitespace;
if the line still has content, keep the leading-whitespace width as
spaces and collapse internal space runs in the content. -/
def processLine (line : Str) : Str :=
  let cl := rstrip line
  if lstrip cl ≠ [] then
    List.replicate (cl.length - (lstrip cl).length) ' ' ++
      collapseSpaces (lstrip cl)
  else cl

/-- Python str.split(newline).  (The result is always non-empty; headI
has default [] and is only the head.) -/
def splitNl : Str → List Str
  | [] => [[]]
  | '\n' :: rest => [] :: splitNl rest
  | c :: rest => (c :: (splitNl rest).headI) :: (splitNl rest).tail

/-- Python newline.join(lines). -/
def joinNl : List Str → Str
  | [] => []
  | [l] => l
  | l :: ls => l ++ '\n' :: joinNl ls

/-- Step 5 of normalize_text: replace each tab by one space. -/
def tabsToSpaces (s : Str) : Str :=
  s.map (fun c => if c = '\t' then ' ' else c)

/-- TextCleaner.normalize_text: ligatures, line endings, per-line
cleanup, blank-line capping, then tab replacement (in that order — note
tabs are replaced only after space runs were collapsed). -/
def normalizeText (s : Str) : Str :=
  if s = [] then s
  else
    tabsToSpaces
      (collapseNl (joinNl ((splitNl (crToLf (fixLigatures s))).map processLine)))


/-- C5 counterexample: normalize_text is not idempotent.  Tabs are
replaced by single spaces only AFTER space runs are collapsed, so two
adjacent tabs become two adjacent spaces, which a second application
collapses to one. -/
theorem C5_normalize_not_idempotent :
    normalizeText (normalizeText ("a\t\tb".toList)) ≠
      normalizeText ("a\t\tb".toList) ∧
    normalizeText ("a\t\tb".toList) = "a  b".toList ∧
    normalizeText (normalizeText ("a\t\tb".toList)) = "a b".toList := by
  decide


/- Character-tracking lemmas for normalize_text (claim C5). -/

theorem mem_lstrip {c : Char} {s : Str} (h : c ∈ lstrip s) : c ∈ s :=
  (List.dropWhile_suffix isPySpace).mem h

theorem mem_rstrip {c : Char} {s : Str} (h : c ∈ rstrip s) : c ∈ s := by
  unfold rstrip at h
  rw [List.mem_reverse] at h
  have h2 := (List.dropWhile_suffix (l := s.reverse) isPySpace).mem h
  rwa [List.mem_reverse] at h2

theorem startsWith_subset : ∀ {n s : Str}, startsWith n s = true →
    ∀ c ∈ n, c ∈ s := by
  intro n
  induction n with
  | nil => intro s _ c hc; exact absurd hc (List.not_mem_nil _)
  | cons a as ih =>
    intro s h c hc
    rcases s with _ | ⟨b, bs⟩
    · rw [show startsWith (a :: as) [] = false from rfl] at h
      exact Bool.noConfusion h
    · rw [startsWith, Bool.and_eq_true, beq_iff_eq] at h
      rcases List.mem_cons.mp hc with rfl | hc
      · exact h.1 ▸ List.mem_cons_self _ _
      · exact List.mem_cons_of_mem _ (ih h.2 c hc)

theorem containsSub_eq_false_of_missing {x : Char} {n : Str}
    (hx : x ∈ n) : ∀ {s : Str}, x ∉ s → containsSub n s = false := by
  intro s
  induction s with
  | nil =>
    intro _
    rw [containsSub]
    rcases n with _ | ⟨a, as⟩
    · exact absurd hx (List.not_mem_nil _)
    · rfl
  | cons c rest ih =>
    intro hs
    rw [containsSub, Bool.or_eq_false_iff]
    constructor
    · rcases hsw : startsWith n (c :: rest) with _ | _
      · rfl
      · exact absurd (startsWith_subset hsw x hx) hs
    · exact ih (fun hm => hs (List.mem_cons_of_mem _ hm))

theorem pyReplaceAux_id_of_not_sub {n r : Str} :
    ∀ (fuel : Nat) (s : Str), containsSub n s = false →
      pyReplaceAux n r fuel s = s := by
  intro fuel
  induction fuel with
  | zero => intro s _; rfl
  | succ fuel ih =>
    intro s hs
    rcases s with _ | ⟨c, rest⟩
    · rfl
    · rw [containsSub, Bool.or_eq_false_iff] at hs
      rw [pyReplaceAux, if_neg (by rw [hs.1]; exact Bool.noConfusion),
        ih rest hs.2]

theorem pyReplace_id_of_not_sub {n r s : Str}
    (hs : containsSub n s = false) : pyReplace n r s = s := by
  unfold pyReplace
  by_cases hn : n.isEmpty
  · rw [if_pos hn]
  · rw [if_neg hn, pyReplaceAux_id_of_not_sub _ _ hs]

theorem pyReplace_id_of_missing_char {x : Char} {n r s : Str}
    (hx : x ∈ n) (hs : x ∉ s) : pyReplace n r s = s :=
  pyReplace_id_of_not_sub (containsSub_eq_false_of_missing hx hs)

theorem mem_pyReplaceAux {x : Char} {n r : Str} :
    ∀ (fuel : Nat) (s : Str), x ∈ pyReplaceAux n r fuel s →
      x ∈ s ∨ x ∈ r := by
  intro fuel
  induction fuel with
  | zero => intro s h; exact Or.inl h
  | succ fuel ih =>
    intro s h
    rcases s with _ | ⟨c, rest⟩
    · exact Or.inl h
    · rw [pyReplaceAux] at h
      by_cases hsw : startsWith n (c :: rest) = true
      · rw [if_pos hsw] at h
        rcases List.mem_append.mp h with h | h
        · exact Or.inr h
        · rcases ih _ h with h | h
          · exact Or.inl (List.mem_cons_of_mem _ (List.drop_subset _ _ h))
          · exact Or.inr h
      · rw [if_neg hsw] at h
        rcases List.mem_cons.mp h with rfl | h
        · exact Or.inl (List.mem_cons_self _ _)
        · rcases ih _ h with h | h
          · exact Or.inl (List.mem_cons_of_mem _ h)
          · exact Or.inr h

theorem mem_pyReplace {x : Char} {n r s : Str}
    (h : x ∈ pyReplace n r s) : x ∈ s ∨ x ∈ r := by
  unfold pyReplace at h
  by_cases hn : n.isEmpty
  · rw [if_pos hn] at h
    exact Or.inl h
  · rw [if_neg hn] at h
    exact mem_pyReplaceAux _ _ h

theorem pyReplace_pres_not_mem {x : Char} {n r s : Str}
    (hs : x ∉ s) (hr : x ∉ r) : x ∉ pyReplace n r s := by
  intro h
  rcases mem_pyReplace h with h | h
  · exact hs h
  · exact hr h

theorem pyReplaceAux_single_self (k : Char) : ∀ (fuel : Nat) (s : Str),
    pyReplaceAux [k] [k] fuel s = s := by
  intro fuel
  induction fuel with
  | zero => intro s; rfl
  | succ fuel ih =>
    intro s
    rcases s with _ | ⟨c, rest⟩
    · rfl
    · rw [pyReplaceAux]
      by_cases hsw : startsWith [k] (c :: rest) = true
      · rw [if_pos hsw]
        have hk : k = c := by
          rw [startsWith, Bool.and_eq_true, beq_iff_eq] at hsw
          exact hsw.1
        subst hk
        show k :: pyReplaceAux [k] [k] fuel (rest.drop 0) = k :: rest
        rw [List.drop_zero, ih]
      · rw [if_neg hsw, ih]

theorem pyReplace_self_single (k : Char) (s : Str) :
    pyReplace [k] [k] s = s := by
  unfold pyReplace
  rw [if_neg (fun h => Bool.noConfusion h)]
  exact pyReplaceAux_single_self k s.length s

theorem pyReplaceAux_single_kills {k : Char} {r : Str} (hr : k ∉ r) :
    ∀ (fuel : Nat) (s : Str), s.length ≤ fuel →
      k ∉ pyReplaceAux [k] r fuel s := by
  intro fuel
  induction fuel with
  | zero =>
    intro s hlen
    rw [Nat.le_zero, List.length_eq_zero] at hlen
    subst hlen
    exact List.not_mem_nil _
  | succ fuel ih =>
    intro s hlen
    rcases s with _ | ⟨c, rest⟩
    · exact List.not_mem_nil _
    · rw [List.length_cons, Nat.succ_le_succ_iff] at hlen
      rw [pyReplaceAux]
      by_cases hsw : startsWith [k] (c :: rest) = true
      · rw [if_pos hsw]
        intro hmem
        rcases List.mem_append.mp hmem with h | h
        · exact hr h
        · refine ih (rest.drop ([k].length - 1)) ?_ h
          calc (rest.drop ([k].length - 1)).length ≤ rest.length := by
                rw [List.length_drop]
                omega
            _ ≤ fuel := hlen
      · rw [if_neg hsw]
        intro hmem
        rcases List.mem_cons.mp hmem with rfl | h
        · refine hsw ?_
          rw [startsWith]
          simp [startsWith]
        · exact ih rest hlen h

theorem pyReplace_single_kills {k : Char} {r : Str} (hr : k ∉ r)
    (s : Str) : k ∉ pyReplace [k] r s := by
  unfold pyReplace
  rw [if_neg (fun h => Bool.noConfusion h)]
  exact pyReplaceAux_single_kills hr s.length s le_rfl

theorem foldl_pyReplace_pres {x : Char} :
    ∀ (l : List (Str × Str)) (s : Str), x ∉ s → (∀ p ∈ l, x ∉ p.2) →
      x ∉ l.foldl (fun acc p => pyReplace p.1 p.2 acc) s := by
  intro l
  induction l with
  | nil => intro s hs _; exact hs
  | cons q qs ih =>
    intro s hs hr
    rw [List.foldl_cons]
    exact ih _ (pyReplace_pres_not_mem hs (hr q (List.mem_cons_self _ _)))
      (fun p hp => hr p (List.mem_cons_of_mem _ hp))

theorem foldl_pyReplace_kills {k : Char} {r : Str}
    (l l₁ l₂ : List (Str × Str)) (hl : l = l₁ ++ ([k], r) :: l₂)
    (hr : k ∉ r) (h₂ : ∀ p ∈ l₂, k ∉ p.2) (s : Str) :
    k ∉ l.foldl (fun acc p => pyReplace p.1 p.2 acc) s := by
  subst hl
  rw [List.foldl_append, List.foldl_cons]
  exact foldl_pyReplace_pres l₂ _ (pyReplace_single_kills hr _) h₂

theorem ligKill_not_fixLigatures : ∀ c ∈ ligKillChars, ∀ (s : Str),
    c ∉ fixLigatures s := by
  intro c hc s
  unfold fixLigatures
  simp only [ligKillChars, List.mem_cons, List.not_mem_nil, or_false] at hc
  rcases hc with rfl | rfl | rfl | rfl | rfl | rfl | rfl | rfl | rfl | rfl | rfl
  · exact foldl_pyReplace_kills ligMap (ligMap.take 0) (ligMap.drop 1) rfl
      (by decide) (by decide) s
  · exact foldl_pyReplace_kills ligMap (ligMap.take 1) (ligMap.drop 2) rfl
      (by decide) (by decide) s
  · exact foldl_pyReplace_kills ligMap (ligMap.take 2) (ligMap.drop 3) rfl
      (by decide) (by decide) s
  · exact foldl_pyReplace_kills ligMap (ligMap.take 3) (ligMap.drop 4) rfl
      (by decide) (by decide) s
  · exact foldl_pyReplace_kills ligMap (ligMap.take 4) (ligMap.drop 5) rfl
      (by decide) (by decide) s
  · exact foldl_pyReplace_kills ligMap (ligMap.take 5) (ligMap.drop 6) rfl
      (by decide) (by decide) s
  · exact foldl_pyReplace_kills ligMap (ligMap.take 6) (ligMap.drop 7) rfl
      (by decide) (by decide) s
  · exact foldl_pyReplace_kills ligMap (ligMap.take 7) (ligMap.drop 8) rfl
      (by decide) (by decide) s
  · exact foldl_pyReplace_kills ligMap (ligMap.take 10) (ligMap.drop 11) rfl
      (by decide) (by decide) s
  · exact foldl_pyReplace_kills ligMap (ligMap.take 11) (ligMap.drop 12) rfl
      (by decide) (by decide) s
  · exact foldl_pyReplace_kills ligMap (ligMap.take 12) (ligMap.drop 13) rfl
      (by decide) (by decide) s

theorem fixLigatures_id_of {t : Str}
    (hk : ∀ c ∈ ligKillChars, c ∉ t)
    (hnd : containsSub ligNeedle t = false) : fixLigatures t = t := by
  have e1 : pyReplace [Char.ofNat 0xFB01] ("fi".toList) t = t :=
    pyReplace_id_of_missing_char (List.mem_singleton.mpr rfl)
      (hk _ (by decide))
  have e2 : pyReplace [Char.ofNat 0xFB02] ("fl".toList) t = t :=
    pyReplace_id_of_missing_char (List.mem_singleton.mpr rfl)
      (hk _ (by decide))
  have e3 : pyReplace [Char.ofNat 0xFB00] ("ff".toList) t = t :=
    pyReplace_id_of_missing_char (List.mem_singleton.mpr rfl)
      (hk _ (by decide))
  have e4 : pyReplace [Char.ofNat 0xFB03] ("ffi".toList) t = t :=
    pyReplace_id_of_missing_char (List.mem_singleton.mpr rfl)
      (hk _ (by decide))
  have e5 : pyReplace [Char.ofNat 0xFB04] ("ffl".toList) t = t :=
    pyReplace_id_of_missing_char (List.mem_singleton.mpr rfl)
      (hk _ (by decide))
  have e6 : pyReplace [Char.ofNat 0xFB06] ("st".toList) t = t :=
    pyReplace_id_of_missing_char (List.mem_singleton.mpr rfl)
      (hk _ (by decide))
  have e7 : pyReplace [Char.ofNat 0x153] ("oe".toList) t = t :=
    pyReplace_id_of_missing_char (List.mem_singleton.mpr rfl)
      (hk _ (by decide))
  have e8 : pyReplace [Char.ofNat 0xE6] ("ae".toList) t = t :=
    pyReplace_id_of_missing_char (List.mem_singleton.mpr rfl)
      (hk _ (by decide))
  have e9 : pyReplace [Char.ofNat 34] [Char.ofNat 34] t = t :=
    pyReplace_self_single (Char.ofNat 34) t
  have e10 : pyReplace ligNeedle [Char.ofNat 39] t = t :=
    pyReplace_id_of_not_sub hnd
  have e11 : pyReplace [Char.ofNat 0x2013] ("-".toList) t = t :=
    pyReplace_id_of_missing_char (List.mem_singleton.mpr rfl)
      (hk _ (by decide))
  have e12 : pyReplace [Char.ofNat 0x2014] ("--".toList) t = t :=
    pyReplace_id_of_missing_char (List.mem_singleton.mpr rfl)
      (hk _ (by decide))
  have e13 : pyReplace [Char.ofNat 0x2026] ("...".toList) t = t :=
    pyReplace_id_of_missing_char (List.mem_singleton.mpr rfl)
      (hk _ (by decide))
  show ligMap.foldl (fun acc p => pyReplace p.1 p.2 acc) t = t
  simp only [ligMap, List.foldl_cons, List.foldl_nil]
  rw [e1, e2, e3, e4, e5, e6, e7, e8, e9, e10, e11, e12, e13]

theorem mem_crToLf {c : Char} (s : Str) (h : c ∈ crToLf s) :
    c ∈ s ∨ c = '\n' := by
  induction s using crToLf.induct with
  | case1 => exact absurd h (List.not_mem_nil _)
  | case2 rest ih =>
    rw [crToLf] at h
    rcases List.mem_cons.mp h with rfl | h
    · exact Or.inr rfl
    · rcases ih h with h | h
      · exact Or.inl (List.mem_cons_of_mem _ (List.mem_cons_of_mem _ h))
      · exact Or.inr h
  | case3 rest hne ih =>
    rw [crToLf] at h
    · rcases List.mem_cons.mp h with rfl | h
      · exact Or.inr rfl
      · rcases ih h with h | h
        · exact Or.inl (List.mem_cons_of_mem _ h)
        · exact Or.inr h
    · exact hne
  | case4 d rest hne1 hne2 ih =>
    rw [crToLf] at h
    · rcases List.mem_cons.mp h with rfl | h
      · exact Or.inl (List.mem_cons_self _ _)
      · rcases ih h with h | h
        · exact Or.inl (List.mem_cons_of_mem _ h)
        · exact Or.inr h
    · exact hne1
    · exact hne2

theorem crToLf_no_cr (s : Str) : '\r' ∉ crToLf s := by
  induction s using crToLf.induct with
  | case1 => exact List.not_mem_nil _
  | case2 rest ih =>
    rw [crToLf]
    intro h
    rcases List.mem_cons.mp h with h | h
    · exact absurd h (by decide)
    · exact ih h
  | case3 rest hne ih =>
    rw [crToLf]
    · intro h
      rcases List.mem_cons.mp h with h | h
      · exact absurd h (by decide)
      · exact ih h
    · exact hne
  | case4 d rest hne1 hne2 ih =>
    rw [crToLf]
    · intro h
      rcases List.mem_cons.mp h with h | h
      · exact absurd (h ▸ hne2) (by simp)
      · exact ih h
    · exact hne1
    · exact hne2

theorem crToLf_id (s : Str) (h : '\r' ∉ s) : crToLf s = s := by
  induction s using crToLf.induct with
  | case1 => rfl
  | case2 rest ih => exact absurd (List.mem_cons_self _ _) h
  | case3 rest hne ih => exact absurd (List.mem_cons_self _ _) h
  | case4 d rest hne1 hne2 ih =>
    rw [crToLf]
    · rw [ih (fun hm => h (List.mem_cons_of_mem _ hm))]
    · exact hne1
    · exact hne2

theorem mem_tabsToSpaces {c : Char} {s : Str} (h : c ∈ tabsToSpaces s) :
    c ∈ s ∨ c = ' ' := by
  unfold tabsToSpaces at h
  rw [List.mem_map] at h
  obtain ⟨a, ha, hc⟩ := h
  by_cases hat : a = '\t'
  · rw [if_pos hat] at hc
    exact Or.inr hc.symm
  · rw [if_neg hat] at hc
    exact Or.inl (hc ▸ ha)

theorem tabsToSpaces_id : ∀ {s : Str}, '\t' ∉ s → tabsToSpaces s = s := by
  intro s
  induction s with
  | nil => intro _; rfl
  | cons a rest ih =>
    intro h
    unfold tabsToSpaces at ih ⊢
    rw [List.map_cons,
      if_neg (show ¬ a = '\t' by
        intro hat; exact h (hat ▸ List.mem_cons_self a rest)),
      ih (fun hm => h (List.mem_cons_of_mem _ hm))]


theorem headI_mem {α : Type _} [Inhabited α] {l : List α} (h : l ≠ []) :
    l.headI ∈ l := by
  cases l with
  | nil => exact absurd rfl h
  | cons a rest => exact List.mem_cons_self _ _

theorem collapseSpaces_cons (a : Char) (rest : Str) :
    collapseSpaces (a :: rest) =
      if a = ' ' then
        (if (collapseSpaces rest).head? = some ' ' then collapseSpaces rest
         else ' ' :: collapseSpaces rest)
      else a :: collapseSpaces rest := by
  rw [collapseSpaces]

theorem mem_collapseSpaces {c : Char} : ∀ {s : Str}, c ∈ collapseSpaces s → c ∈ s := by
  intro s
  induction s with
  | nil => intro h; exact absurd h (List.not_mem_nil _)
  | cons a rest ih =>
    intro h
    rw [collapseSpaces_cons] at h
    by_cases ha : a = ' '
    · rw [if_pos ha] at h
      by_cases hh : (collapseSpaces rest).head? = some ' '
      · rw [if_pos hh] at h
        exact List.mem_cons_of_mem _ (ih h)
      · rw [if_neg hh] at h
        rcases List.mem_cons.mp h with rfl | h
        · rw [ha]; exact List.mem_cons_self _ _
        · exact List.mem_cons_of_mem _ (ih h)
    · rw [if_neg ha] at h
      rcases List.mem_cons.mp h with rfl | h
      · exact List.mem_cons_self _ _
      · exact List.mem_cons_of_mem _ (ih h)

theorem collapseSpaces_idem : ∀ (s : Str),
    collapseSpaces (collapseSpaces s) = collapseSpaces s := by
  intro s
  induction s with
  | nil => rfl
  | cons a rest ih =>
    rw [collapseSpaces_cons]
    by_cases ha : a = ' '
    · rw [if_pos ha]
      by_cases hh : (collapseSpaces rest).head? = some ' '
      · rw [if_pos hh]; exact ih
      · rw [if_neg hh, collapseSpaces_cons, if_pos rfl, ih, if_neg hh]
    · rw [if_neg ha, collapseSpaces_cons, if_neg ha, ih]

theorem collapseSpaces_append_nonspace {c : Char} (hc : ¬ c = ' ') :
    ∀ (l : Str), ∃ l2, collapseSpaces (l ++ [c]) = l2 ++ [c] := by
  intro l
  induction l with
  | nil =>
    refine ⟨[], ?_⟩
    rw [List.nil_append, collapseSpaces_cons, if_neg hc]
    rfl
  | cons a rest ih =>
    obtain ⟨l2, hl2⟩ := ih
    rw [List.cons_append, collapseSpaces_cons]
    by_cases ha : a = ' '
    · rw [if_pos ha]
      by_cases hh : (collapseSpaces (rest ++ [c])).head? = some ' '
      · rw [if_pos hh]
        exact ⟨l2, hl2⟩
      · rw [if_neg hh, hl2]
        exact ⟨' ' :: l2, rfl⟩
    · rw [if_neg ha, hl2]
      exact ⟨a :: l2, rfl⟩

theorem collapseNl_cons (a : Char) (rest : Str) :
    collapseNl (a :: rest) =
      if a = '\n' then
        (if (collapseNl rest).head? = some '\n' ∧
            (collapseNl rest).tail.head? = some '\n' then collapseNl rest
         else '\n' :: collapseNl rest)
      else a :: collapseNl rest := by
  rw [collapseNl]

theorem mem_collapseNl {c : Char} : ∀ {s : Str}, c ∈ collapseNl s → c ∈ s := by
  intro s
  induction s with
  | nil => intro h; exact absurd h (List.not_mem_nil _)
  | cons a rest ih =>
    intro h
    rw [collapseNl_cons] at h
    by_cases ha : a = '\n'
    · rw [if_pos ha] at h
      by_cases hh : (collapseNl rest).head? = some '\n' ∧
          (collapseNl rest).tail.head? = some '\n'
      · rw [if_pos hh] at h
        exact List.mem_cons_of_mem _ (ih h)
      · rw [if_neg hh] at h
        rcases List.mem_cons.mp h with rfl | h
        · rw [ha]; exact List.mem_cons_self _ _
        · exact List.mem_cons_of_mem _ (ih h)
    · rw [if_neg ha] at h
      rcases List.mem_cons.mp h with rfl | h
      · exact List.mem_cons_self _ _
      · exact List.mem_cons_of_mem _ (ih h)

theorem collapseNl_idem : ∀ (s : Str),
    collapseNl (collapseNl s) = collapseNl s := by
  intro s
  induction s with
  | nil => rfl
  | cons a rest ih =>
    rw [collapseNl_cons]
    by_cases ha : a = '\n'
    · rw [if_pos ha]
      by_cases hh : (collapseNl rest).head? = some '\n' ∧
          (collapseNl rest).tail.head? = some '\n'
      · rw [if_pos hh]; exact ih
      · rw [if_neg hh, collapseNl_cons, if_pos rfl, ih, if_neg hh]
    · rw [if_neg ha, collapseNl_cons, if_neg ha, ih]

theorem splitNl_nl_cons (rest : Str) : splitNl ('\n' :: rest) = [] :: splitNl rest := by
  rw [splitNl]

theorem splitNl_cons_nonnl {c : Char} (hc : ¬ c = '\n') (rest : Str) :
    splitNl (c :: rest) = (c :: (splitNl rest).headI) :: (splitNl rest).tail := by
  rw [splitNl]
  exact hc

theorem splitNl_ne_nil : ∀ (s : Str), splitNl s ≠ [] := by
  intro s
  induction s using splitNl.induct with
  | case1 => exact List.cons_ne_nil _ _
  | case2 rest ih => rw [splitNl_nl_cons]; exact List.cons_ne_nil _ _
  | case3 c rest hne ih =>
    rw [splitNl_cons_nonnl hne]
    exact List.cons_ne_nil _ _


theorem splitNl_no_nl : ∀ (s : Str), ∀ l ∈ splitNl s, '\n' ∉ l := by
  intro s
  induction s using splitNl.induct with
  | case1 =>
    intro l hl
    rcases List.mem_singleton.mp hl with rfl
    exact List.not_mem_nil _
  | case2 rest ih =>
    intro l hl
    rw [splitNl_nl_cons] at hl
    rcases List.mem_cons.mp hl with rfl | hl
    · exact List.not_mem_nil _
    · exact ih l hl
  | case3 c rest hne ih =>
    intro l hl
    rw [splitNl_cons_nonnl hne] at hl
    rcases List.mem_cons.mp hl with rfl | hl
    · intro hmem
      rcases List.mem_cons.mp hmem with h | h
      · exact hne h.symm
      · exact ih _ (headI_mem (splitNl_ne_nil rest)) h
    · exact ih l (List.mem_of_mem_tail hl)

theorem mem_splitNl_subset : ∀ (s : Str), ∀ l ∈ splitNl s, ∀ c ∈ l, c ∈ s := by
  intro s
  induction s using splitNl.induct with
  | case1 =>
    intro l hl c hc
    rcases List.mem_singleton.mp hl with rfl
    exact absurd hc (List.not_mem_nil _)
  | case2 rest ih =>
    intro l hl c hc
    rw [splitNl_nl_cons] at hl
    rcases List.mem_cons.mp hl with rfl | hl
    · exact absurd hc (List.not_mem_nil _)
    · exact List.mem_cons_of_mem _ (ih l hl c hc)
  | case3 d rest hne ih =>
    intro l hl c hc
    rw [splitNl_cons_nonnl hne] at hl
    rcases List.mem_cons.mp hl with rfl | hl
    · rcases List.mem_cons.mp hc with rfl | hc
      · exact List.mem_cons_self _ _
      · exact List.mem_cons_of_mem _
          (ih _ (headI_mem (splitNl_ne_nil rest)) c hc)
    · exact List.mem_cons_of_mem _ (ih l (List.mem_of_mem_tail hl) c hc)

theorem joinNl_cons (l : Str) (ls : List Str) :
    joinNl (l :: ls) = l ++ (if ls.isEmpty then [] else '\n' :: joinNl ls) := by
  cases ls with
  | nil => exact (List.append_nil l).symm
  | cons l2 ls2 =>
    rw [joinNl]
    · simp
    · exact fun h => List.noConfusion h

theorem joinNl_splitNl : ∀ (s : Str), joinNl (splitNl s) = s := by
  intro s
  induction s using splitNl.induct with
  | case1 => rfl
  | case2 rest ih =>
    rw [splitNl_nl_cons, joinNl_cons,
      if_neg (by simpa using splitNl_ne_nil rest), ih]
    rfl
  | case3 c rest hne ih =>
    rw [splitNl_cons_nonnl hne, joinNl_cons]
    rcases hsp : splitNl rest with _ | ⟨h0, t0⟩
    · exact absurd hsp (splitNl_ne_nil rest)
    · rw [hsp] at ih
      by_cases ht : t0.isEmpty
      · rcases List.isEmpty_iff.mp ht with rfl
        simp only [List.headI, List.tail, List.isEmpty_nil, if_pos]
        rw [joinNl] at ih
        simp only [List.append_nil, List.cons_append]
        rw [ih]
      · rw [joinNl_cons, if_neg (by simpa using ht)] at ih
        simp only [List.headI, List.tail]
        rw [if_neg (by simpa using ht)]
        simp only [List.cons_append]
        rw [ih]

theorem splitNl_of_no_nl : ∀ {z : Str}, '\n' ∉ z → splitNl z = [z] := by
  intro z
  induction z with
  | nil => intro _; rfl
  | cons c rest ih =>
    intro h
    have hc : ¬ c = '\n' := fun hcc => h (hcc ▸ List.mem_cons_self _ _)
    rw [splitNl_cons_nonnl hc, ih (fun hm => h (List.mem_cons_of_mem _ hm))]
    rfl

theorem splitNl_append_nl : ∀ {z : Str}, '\n' ∉ z → ∀ (w : Str),
    splitNl (z ++ '\n' :: w) = z :: splitNl w := by
  intro z
  induction z with
  | nil =>
    intro _ w
    rw [List.nil_append, splitNl_nl_cons]
  | cons c rest ih =>
    intro h w
    have hc : ¬ c = '\n' := fun hcc => h (hcc ▸ List.mem_cons_self _ _)
    rw [List.cons_append, splitNl_cons_nonnl hc,
      ih (fun hm => h (List.mem_cons_of_mem _ hm))]
    rfl

theorem splitNl_joinNl : ∀ (zs : List Str), zs ≠ [] →
    (∀ z ∈ zs, '\n' ∉ z) → splitNl (joinNl zs) = zs := by
  intro zs
  induction zs with
  | nil => intro h _; exact absurd rfl h
  | cons z rest ih =>
    intro _ hnl
    cases rest with
    | nil =>
      rw [joinNl]
      exact splitNl_of_no_nl (hnl z (List.mem_cons_self _ _))
    | cons z2 rest2 =>
      rw [joinNl]
      · rw [splitNl_append_nl (hnl z (List.mem_cons_self _ _)),
          ih (List.cons_ne_nil _ _)
            (fun y hy => hnl y (List.mem_cons_of_mem _ hy))]
      · exact fun h => List.noConfusion h

theorem mem_joinNl {c : Char} : ∀ {ls : List Str}, c ∈ joinNl ls →
    (∃ l ∈ ls, c ∈ l) ∨ c = '\n' := by
  intro ls
  induction ls with
  | nil => intro h; exact absurd h (List.not_mem_nil _)
  | cons l rest ih =>
    intro h
    rw [joinNl_cons] at h
    rcases List.mem_append.mp h with h | h
    · exact Or.inl ⟨l, List.mem_cons_self _ _, h⟩
    · by_cases hr : rest.isEmpty
      · rw [if_pos hr] at h
        exact absurd h (List.not_mem_nil _)
      · rw [if_neg hr] at h
        rcases List.mem_cons.mp h with rfl | h
        · exact Or.inr rfl
        · rcases ih h with ⟨l2, hl2, hc⟩ | h
          · exact Or.inl ⟨l2, List.mem_cons_of_mem _ hl2, hc⟩
          · exact Or.inr h


theorem dropWhile_cons_head_false {α : Type _} {p : α → Bool} :
    ∀ {l : List α} {x : α} {xs : List α}, l.dropWhile p = x :: xs → p x = false := by
  intro l
  induction l with
  | nil => intro x xs h; exact absurd h (by simp)
  | cons a rest ih =>
    intro x xs h
    rw [List.dropWhile_cons] at h
    by_cases ha : p a = true
    · rw [if_pos ha] at h
      exact ih h
    · rw [if_neg ha] at h
      injection h with h1 _
      rw [Bool.not_eq_true] at ha
      exact h1 ▸ ha

theorem rstrip_shape (s : Str) :
    rstrip s = [] ∨ ∃ m c, rstrip s = m ++ [c] ∧ isPySpace c = false := by
  unfold rstrip
  rcases hr : s.reverse.dropWhile isPySpace with _ | ⟨b, t⟩
  · exact Or.inl rfl
  · exact Or.inr ⟨t.reverse, b, by rw [List.reverse_cons],
      dropWhile_cons_head_false hr⟩

theorem rstrip_append_nonws {c : Char} (hc : isPySpace c = false) (m : Str) :
    rstrip (m ++ [c]) = m ++ [c] := by
  unfold rstrip
  rw [List.reverse_append, List.reverse_singleton, List.singleton_append,
    List.dropWhile_cons, hc]
  simp

theorem lstrip_replicate {d : Char} (hd : isPySpace d = false) (t : Str) :
    ∀ (k : Nat), lstrip (List.replicate k ' ' ++ d :: t) = d :: t := by
  intro k
  induction k with
  | zero =>
    rw [List.replicate_zero, List.nil_append]
    unfold lstrip
    rw [List.dropWhile_cons, hd]
    simp
  | succ n ih =>
    rw [List.replicate_succ, List.cons_append]
    unfold lstrip at ih ⊢
    rw [List.dropWhile_cons, if_pos (by decide), ih]

theorem lstrip_eq_nil {s : Str} (h : lstrip s = []) :
    ∀ c ∈ s, isPySpace c = true :=
  List.dropWhile_eq_nil_iff.mp h

theorem lstrip_head {s : Str} {d : Char} {t : Str} (h : lstrip s = d :: t) :
    isPySpace d = false :=
  dropWhile_cons_head_false h

theorem processLine_def (l : Str) :
    processLine l =
      if lstrip (rstrip l) ≠ [] then
        List.replicate ((rstrip l).length - (lstrip (rstrip l)).length) ' ' ++
          collapseSpaces (lstrip (rstrip l))
      else rstrip l := by
  rw [processLine]

theorem mem_processLine {c : Char} {l : Str} (h : c ∈ processLine l) :
    c ∈ l ∨ c = ' ' := by
  rw [processLine_def] at h
  by_cases hne : lstrip (rstrip l) ≠ []
  · rw [if_pos hne] at h
    rcases List.mem_append.mp h with h | h
    · exact Or.inr (List.eq_of_mem_replicate h)
    · exact Or.inl (mem_rstrip (mem_lstrip (mem_collapseSpaces h)))
  · rw [if_neg hne] at h
    exact Or.inl (mem_rstrip h)

theorem processLine_nil : processLine [] = [] := rfl

theorem lstrip_append_nonws {c : Char} (hc : isPySpace c = false) :
    ∀ (m : Str), ∃ m2, lstrip (m ++ [c]) = m2 ++ [c] := by
  intro m
  induction m with
  | nil =>
    refine ⟨[], ?_⟩
    unfold lstrip
    rw [List.nil_append, List.dropWhile_cons, hc]
    simp
  | cons a rest ih =>
    obtain ⟨m2, hm2⟩ := ih
    unfold lstrip at hm2 ⊢
    rw [List.cons_append, List.dropWhile_cons]
    by_cases ha : isPySpace a = true
    · rw [if_pos ha]
      exact ⟨m2, hm2⟩
    · rw [if_neg ha]
      exact ⟨a :: rest, by rw [List.cons_append]⟩

theorem processLine_idem (l : Str) :
    processLine (processLine l) = processLine l := by
  rcases rstrip_shape l with hnil | ⟨m, c, hmc, hc⟩
  · have hpl : processLine l = [] := by
      rw [processLine_def, hnil]
      simp [lstrip]
    rw [hpl]
    exact processLine_nil
  · have hcontent : lstrip (rstrip l) = (lstrip_append_nonws hc m).choose ++ [c] := by
      rw [hmc]
      exact (lstrip_append_nonws hc m).choose_spec
    have hlne : lstrip (rstrip l) ≠ [] := by
      rw [hcontent]; simp
    rcases hcont : lstrip (rstrip l) with _ | ⟨d, t⟩
    · exact absurd hcont hlne
    · have hd : isPySpace d = false := lstrip_head hcont
      have hdsp : ¬ d = ' ' := by
        intro h
        rw [h] at hd
        exact Bool.noConfusion ((by decide : isPySpace ' ' = true) ▸ hd)
      have hcsp : ¬ c = ' ' := by
        intro h
        rw [h] at hc
        exact Bool.noConfusion ((by decide : isPySpace ' ' = true) ▸ hc)
      obtain ⟨l2, hl2⟩ :=
        collapseSpaces_append_nonspace hcsp (lstrip_append_nonws hc m).choose
      have hCC : collapseSpaces (lstrip (rstrip l)) = l2 ++ [c] := by
        rw [hcontent]; exact hl2
      have hccHead : collapseSpaces (lstrip (rstrip l)) = d :: collapseSpaces t := by
        rw [hcont, collapseSpaces_cons, if_neg hdsp]
      rw [processLine_def l, if_pos hlne]
      rw [processLine_def]
      have hro : rstrip (List.replicate
            ((rstrip l).length - (lstrip (rstrip l)).length) ' ' ++
            collapseSpaces (lstrip (rstrip l))) =
          List.replicate ((rstrip l).length - (lstrip (rstrip l)).length) ' ' ++
            collapseSpaces (lstrip (rstrip l)) := by
        rw [hCC, ← List.append_assoc]
        exact rstrip_append_nonws hc _
      rw [hro]
      have hlo : lstrip (List.replicate
            ((rstrip l).length - (lstrip (rstrip l)).length) ' ' ++
            collapseSpaces (lstrip (rstrip l))) =
          collapseSpaces (lstrip (rstrip l)) := by
        rw [hccHead]
        exact lstrip_replicate hd _ _
      rw [hlo]
      have hCCne : collapseSpaces (lstrip (rstrip l)) ≠ [] := by
        rw [hCC]; simp
      rw [if_pos hCCne, collapseSpaces_idem]
      have hlen : (List.replicate
            ((rstrip l).length - (lstrip (rstrip l)).length) ' ' ++
            collapseSpaces (lstrip (rstrip l))).length -
            (collapseSpaces (lstrip (rstrip l))).length =
          (rstrip l).length - (lstrip (rstrip l)).length := by
        rw [List.length_append, List.length_replicate]
        omega
      rw [hlen]


theorem collapseNl_nl_cons (rest : Str) :
    collapseNl ('\n' :: rest) =
      if (collapseNl rest).head? = some '\n' ∧
          (collapseNl rest).tail.head? = some '\n' then collapseNl rest
      else '\n' :: collapseNl rest := by
  rw [collapseNl_cons, if_pos rfl]

theorem collapseNl_cons_nonnl {c : Char} (hc : ¬ c = '\n') (rest : Str) :
    collapseNl (c :: rest) = c :: collapseNl rest := by
  rw [collapseNl_cons, if_neg hc]

/-- The effect of collapseNl on the line decomposition: a newline is
dropped exactly when the already-collapsed suffix starts with two empty
lines followed by more material. -/
def clLines : List Str → List Str
  | [] => []
  | [x] => [x]
  | x :: y :: ls =>
    if (clLines (y :: ls)).head? = some [] ∧
        (clLines (y :: ls)).tail.head? = some [] ∧
        (clLines (y :: ls)).tail.tail ≠ [] then x :: (clLines (y :: ls)).tail
    else x :: clLines (y :: ls)

theorem clLines_cons2 (x y : Str) (ls : List Str) :
    clLines (x :: y :: ls) =
      if (clLines (y :: ls)).head? = some [] ∧
          (clLines (y :: ls)).tail.head? = some [] ∧
          (clLines (y :: ls)).tail.tail ≠ [] then x :: (clLines (y :: ls)).tail
      else x :: clLines (y :: ls) := by
  rw [clLines]

theorem mem_clLines : ∀ (ls : List Str), ∀ li ∈ clLines ls, li ∈ ls := by
  intro ls
  induction ls with
  | nil => intro li h; exact absurd h (List.not_mem_nil _)
  | cons x rest ih =>
    intro li h
    rcases rest with _ | ⟨y, ls2⟩
    · rw [show clLines [x] = [x] from rfl] at h
      rcases List.mem_singleton.mp h with rfl
      exact List.mem_singleton.mpr rfl
    · rw [clLines_cons2] at h
      by_cases hcond : (clLines (y :: ls2)).head? = some [] ∧
          (clLines (y :: ls2)).tail.head? = some [] ∧
          (clLines (y :: ls2)).tail.tail ≠ []
      · rw [if_pos hcond] at h
        rcases List.mem_cons.mp h with rfl | h
        · exact List.mem_cons_self _ _
        · exact List.mem_cons_of_mem _ (ih li (List.mem_of_mem_tail h))
      · rw [if_neg hcond] at h
        rcases List.mem_cons.mp h with rfl | h
        · exact List.mem_cons_self _ _
        · exact List.mem_cons_of_mem _ (ih li h)

theorem splitNl_two_empty_iff (v : Str) :
    ((splitNl v).head? = some [] ∧ (splitNl v).tail.head? = some [] ∧
      (splitNl v).tail.tail ≠ []) ↔
    (v.head? = some '\n' ∧ v.tail.head? = some '\n') := by
  rcases v with _ | ⟨a, v1⟩
  · simp [splitNl]
  · by_cases ha : a = '\n'
    · subst ha
      rw [splitNl_nl_cons]
      rcases v1 with _ | ⟨b, v2⟩
      · simp [splitNl]
      · by_cases hb : b = '\n'
        · subst hb
          rw [splitNl_nl_cons]
          simp [splitNl_ne_nil]
        · rw [splitNl_cons_nonnl hb]
          simp [hb]
    · rw [splitNl_cons_nonnl ha]
      simp [ha]

theorem eq_cons_tail_of_head? {α : Type _} {l : List α} {a : α}
    (h : l.head? = some a) : l = a :: l.tail := by
  rcases l with _ | ⟨x, t⟩
  · exact absurd h (by simp)
  · rw [List.head?_cons, Option.some.injEq] at h
    rw [h]
    rfl

theorem splitNl_collapseNl : ∀ (w : Str),
    splitNl (collapseNl w) = clLines (splitNl w) := by
  intro w
  induction w using splitNl.induct with
  | case1 => rfl
  | case2 rest ih =>
    rw [collapseNl_nl_cons, splitNl_nl_cons]
    by_cases hcond : (collapseNl rest).head? = some '\n' ∧
        (collapseNl rest).tail.head? = some '\n'
    · rw [if_pos hcond, ih]
      have hcl : (clLines (splitNl rest)).head? = some [] ∧
          (clLines (splitNl rest)).tail.head? = some [] ∧
          (clLines (splitNl rest)).tail.tail ≠ [] := by
        rw [← ih]
        exact (splitNl_two_empty_iff _).mpr hcond
      rcases hsp : splitNl rest with _ | ⟨m, ls⟩
      · exact absurd hsp (splitNl_ne_nil rest)
      · rw [hsp] at hcl
        rcases ls with _ | ⟨l2, ls2⟩
        · exfalso
          have h2 := hcl.2.1
          rw [show clLines [m] = [m] from rfl] at h2
          simp at h2
        · rw [clLines_cons2 [] m (l2 :: ls2), if_pos hcl]
          exact eq_cons_tail_of_head? hcl.1
    · rw [if_neg hcond, splitNl_nl_cons, ih]
      have hcl : ¬ ((clLines (splitNl rest)).head? = some [] ∧
          (clLines (splitNl rest)).tail.head? = some [] ∧
          (clLines (splitNl rest)).tail.tail ≠ []) := by
        rw [← ih]
        exact fun hcontra => hcond ((splitNl_two_empty_iff _).mp hcontra)
      rcases hsp : splitNl rest with _ | ⟨m, ls⟩
      · exact absurd hsp (splitNl_ne_nil rest)
      · rw [hsp] at hcl
        rcases ls with _ | ⟨l2, ls2⟩
        · simp [clLines]
        · rw [clLines_cons2 [] m (l2 :: ls2), if_neg hcl]
  | case3 c rest hne ih =>
    rw [collapseNl_cons_nonnl hne,
      splitNl_cons_nonnl hne (collapseNl rest), splitNl_cons_nonnl hne rest, ih]
    rcases hsp : splitNl rest with _ | ⟨m, ls⟩
    · exact absurd hsp (splitNl_ne_nil rest)
    · rcases ls with _ | ⟨l2, ls2⟩
      · simp [clLines]
      · simp only [List.headI, List.tail]
        by_cases hcond : (clLines (l2 :: ls2)).head? = some [] ∧
            (clLines (l2 :: ls2)).tail.head? = some [] ∧
            (clLines (l2 :: ls2)).tail.tail ≠ []
        · rw [clLines_cons2 m l2 ls2, if_pos hcond,
            clLines_cons2 (c :: m) l2 ls2, if_pos hcond]
        · rw [clLines_cons2 m l2 ls2, if_neg hcond,
            clLines_cons2 (c :: m) l2 ls2, if_neg hcond]

theorem map_id_of_mem {α : Type _} (f : α → α) : ∀ (l : List α),
    (∀ x ∈ l, f x = x) → l.map f = l := by
  intro l
  induction l with
  | nil => intro _; rfl
  | cons a t ih =>
    intro h
    rw [List.map_cons, h a (List.mem_cons_self a t),
      ih (fun x hx => h x (List.mem_cons_of_mem _ hx))]

theorem chars_of_pipeline (v : Str) :
    ∀ c ∈ collapseNl (joinNl ((splitNl v).map processLine)),
      c ∈ v ∨ c = ' ' ∨ c = '\n' := by
  intro c hc
  rcases mem_joinNl (mem_collapseNl hc) with ⟨z, hz, hcz⟩ | hcn
  · obtain ⟨l, hl, rfl⟩ := List.mem_map.mp hz
    rcases mem_processLine hcz with hcl | hsp
    · exact Or.inl (mem_splitNl_subset v l hl c hcl)
    · exact Or.inr (Or.inl hsp)
  · exact Or.inr (Or.inr hcn)

theorem c5_aux (v : Str) (hvt : Char.ofNat 9 ∉ v) (hvr : Char.ofNat 13 ∉ v)
    (hfl : fixLigatures (collapseNl (joinNl ((splitNl v).map processLine))) =
      collapseNl (joinNl ((splitNl v).map processLine))) :
    normalizeText (collapseNl (joinNl ((splitNl v).map processLine))) =
      collapseNl (joinNl ((splitNl v).map processLine)) ∧
    tabsToSpaces (collapseNl (joinNl ((splitNl v).map processLine))) =
      collapseNl (joinNl ((splitNl v).map processLine)) := by
  have hchar := chars_of_pipeline v
  have htab : '\t' ∉ collapseNl (joinNl ((splitNl v).map processLine)) := by
    intro hc
    rcases hchar _ hc with h1 | h2 | h3
    · exact hvt h1
    · exact absurd h2 (by decide)
    · exact absurd h3 (by decide)
  refine ⟨?_, tabsToSpaces_id htab⟩
  by_cases ht : collapseNl (joinNl ((splitNl v).map processLine)) = []
  · rw [ht]
    rfl
  · rw [normalizeText, if_neg ht]
    have hcr : '\r' ∉ collapseNl (joinNl ((splitNl v).map processLine)) := by
      intro hc
      rcases hchar _ hc with h1 | h2 | h3
      · exact hvr h1
      · exact absurd h2 (by decide)
      · exact absurd h3 (by decide)
    have hne : (splitNl v).map processLine ≠ [] := by
      intro hmap
      exact splitNl_ne_nil v (List.map_eq_nil_iff.mp hmap)
    have hnl : ∀ z ∈ (splitNl v).map processLine, '\n' ∉ z := by
      intro z hz hcn
      obtain ⟨l, hl, rfl⟩ := List.mem_map.mp hz
      rcases mem_processLine hcn with hcl | hsp
      · exact splitNl_no_nl v l hl hcl
      · exact absurd hsp (by decide)
    have hfix : ∀ z ∈ clLines ((splitNl v).map processLine),
        processLine z = z := by
      intro z hz
      obtain ⟨l, hl, rfl⟩ := List.mem_map.mp (mem_clLines _ z hz)
      exact processLine_idem l
    have hcz : clLines ((splitNl v).map processLine) =
        splitNl (collapseNl (joinNl ((splitNl v).map processLine))) := by
      rw [splitNl_collapseNl, splitNl_joinNl _ hne hnl]
    have hj : joinNl (clLines ((splitNl v).map processLine)) =
        collapseNl (joinNl ((splitNl v).map processLine)) := by
      rw [hcz, joinNl_splitNl]
    rw [hfl, crToLf_id _ hcr, splitNl_collapseNl,
      splitNl_joinNl _ hne hnl, map_id_of_mem processLine _ hfix, hj,
      collapseNl_idem]
    exact tabsToSpaces_id htab

/-- C5 (amended): normalize_text is idempotent on every tab-free input
whose normalized form does not contain the accidental 19-character
ligature key ligNeedle.  Tabs break idempotence because their
replacement runs after space-run collapsing (the counterexample
theorem), and the accidental key breaks it because line processing can
assemble the key out of text that did not contain it (the needle-defect
theorem below witnesses this second failure mode). -/
theorem C5_normalize_idempotent_no_tab_no_needle (s : Str)
    (ht : '\t' ∉ s)
    (hnd : containsSub ligNeedle (normalizeText s) = false) :
    normalizeText (normalizeText s) = normalizeText s := by
  by_cases hs : s = []
  · subst hs
    rfl
  · have hvt : '\t' ∉ crToLf (fixLigatures s) := by
      intro hc
      rcases mem_crToLf _ hc with h1 | h2
      · exact foldl_pyReplace_pres ligMap s ht (by decide) h1
      · exact absurd h2 (by decide)
    have hvr := crToLf_no_cr (fixLigatures s)
    have hkT : ∀ c ∈ ligKillChars, c ∉ collapseNl
        (joinNl ((splitNl (crToLf (fixLigatures s))).map processLine)) := by
      intro c hc hmem
      rcases chars_of_pipeline _ c hmem with h1 | h2 | h3
      · rcases mem_crToLf _ h1 with h4 | h4
        · exact ligKill_not_fixLigatures c hc s h4
        · rw [h4] at hc
          exact absurd hc (by decide)
      · rw [h2] at hc
        exact absurd hc (by decide)
      · rw [h3] at hc
        exact absurd hc (by decide)
    have htabT : '\t' ∉ collapseNl
        (joinNl ((splitNl (crToLf (fixLigatures s))).map processLine)) := by
      intro hmem
      rcases chars_of_pipeline _ _ hmem with h1 | h2 | h3
      · exact hvt h1
      · exact absurd h2 (by decide)
      · exact absurd h3 (by decide)
    have hns : normalizeText s = collapseNl
        (joinNl ((splitNl (crToLf (fixLigatures s))).map processLine)) := by
      rw [normalizeText, if_neg hs]
      exact tabsToSpaces_id htabT
    have hndT : containsSub ligNeedle (collapseNl
        (joinNl ((splitNl (crToLf (fixLigatures s))).map processLine))) =
        false := by
      rw [← hns]
      exact hnd
    obtain ⟨h1, h2⟩ :=
      c5_aux (crToLf (fixLigatures s)) hvt hvr (fixLigatures_id_of hkT hndT)
    rw [hns]
    exact h1

-- C5 witness: the amended idempotence theorem applied at a concrete
-- tab-free input (whose normal form avoids the accidental ligature key)
-- exercising space runs, blank-line runs and trailing whitespace.
theorem C5_witness :
    (('\t' ∉ ("Hello   World \n\n\n\n  Bye ".toList)) ∧
      containsSub ligNeedle
        (normalizeText ("Hello   World \n\n\n\n  Bye ".toList)) = false) ∧
      normalizeText (normalizeText ("Hello   World \n\n\n\n  Bye ".toList)) =
        normalizeText ("Hello   World \n\n\n\n  Bye ".toList) :=
  ⟨⟨by decide, by decide⟩,
    C5_normalize_idempotent_no_tab_no_needle _ (by decide) (by decide)⟩

/-- The input of the needle defect: text that contains the accidental
key's pieces but not the key itself (a space precedes the newline). -/
def c5NeedleInput : Str :=
  'A' :: [':', ' ', Char.ofNat 34, Char.ofNat 39, Char.ofNat 34, ',',
    ' ', '\n'] ++ List.replicate 12 ' ' ++ ['B']

/-- The accidental ligature key also defeats idempotence on tab-free
input: the first application strips the trailing space and keeps the
twelve-space indentation, assembling ligNeedle inside the normalized
output, and the second application's str.replace then collapses the
whole key to one apostrophe. -/
theorem normalizeText_needle_defect :
    ('\t' ∉ c5NeedleInput) ∧
    normalizeText c5NeedleInput = ("A".toList ++ ligNeedle ++ "B".toList) ∧
    normalizeText (normalizeText c5NeedleInput) =
      ['A', Char.ofNat 39, 'B'] ∧
    normalizeText (normalizeText c5NeedleInput) ≠
      normalizeText c5NeedleInput := by
  decide

/- ===================== text_cleaner.py : artifact detection ===================== -/

/-- Python round(): round half to even (used by _get_position_key). -/
def pyRound (q : ℚ) : ℤ :=
  if q - ⌊q⌋ < 1/2 then ⌊q⌋
  else if q - ⌊q⌋ > 1/2 then ⌊q⌋ + 1
  else if ⌊q⌋ % 2 = 0 then ⌊q⌋ else ⌊q⌋ + 1

/-- Python int() on a number: truncation toward zero. -/
def pyInt (q : ℚ) : ℤ := if 0 ≤ q then ⌊q⌋ else -⌊-q⌋

/-- artifact_threshold_count = max(1, int(total_pages * artifact_threshold)). -/
def artifactThresholdCount (thr : ℚ) (totalPages : Nat) : Nat :=
  (max 1 (pyInt (totalPages * thr))).toNat

/-- _get_position_key with the default position_tolerance 5.0: both
coordinates rounded to multiples of the tolerance.  The source formats
the pair as the string f"{x0:.1f},{y0:.1f}"; that formatting is injective
on multiples of 5.0, so the pair of rationals stands in for the string
key. -/
def posKey (b : BBox) : ℚ × ℚ :=
  (pyRound (b.x0 / 5) * 5, pyRound (b.y0 / 5) * 5)

/-- _is_header_footer_position: top 10% or bottom 10% of the sample
page. -/
def isHeaderFooterPosition (b : BBox) (samplePage : PageContent) : Bool :=
  decide (b.y0 < samplePage.pageHeight * (1/10)) ||
  decide (b.y0 > samplePage.pageHeight * (9/10))

/-- Case-insensitive literal match; returns the rest on success. -/
def chompCI : Str → Str → Option Str
  | [], s => some s
  | _ :: _, [] => none
  | c :: cs, d :: ds => if d.toLower = c.toLower then chompCI cs ds else none

/-- re.match of the page-number pattern ^\s*\d+\s*$. -/
def matchNumOnly (t : Str) : Bool :=
  match classPlus isDigitAscii (skipWs t) with
  | some rest => decide (skipWs rest = [])
  | none => false

/-- re.match of ^\s*Page\s+\d+\s*$ (IGNORECASE). -/
def matchPageN (t : Str) : Bool :=
  match chompCI ("Page".toList) (skipWs t) with
  | some rest =>
    headIsWs rest &&
      (match classPlus isDigitAscii (skipWs rest) with
       | some r2 => decide (skipWs r2 = [])
       | none => false)
  | none => false

/-- re.match of ^\s*\d+\s*/\s*\d+\s*$. -/
def matchNSlashM (t : Str) : Bool :=
  match classPlus isDigitAscii (skipWs t) with
  | some r1 =>
    (match chompChar '/' (skipWs r1) with
     | some r2 =>
       (match classPlus isDigitAscii (skipWs r2) with
        | some r3 => decide (skipWs r3 = [])
        | none => false)
     | none => false)
  | none => false

/-- re.match of ^\s*-\s*\d+\s*-\s*$. -/
def matchDashNDash (t : Str) : Bool :=
  match chompChar '-' (skipWs t) with
  | some r1 =>
    (match classPlus isDigitAscii (skipWs r1) with
     | some r2 =>
       (match chompChar '-' (skipWs r2) with
        | some r3 => decide (skipWs r3 = [])
        | none => false)
     | none => false)
  | none => false

/-- re.search of ^[A-Z\s]{10,}$ : anchored at both ends, so a full match;
the checked text is already stripped, so the end anchor cannot sit before
a final newline. -/
def allCapsArtifact (t : Str) : Bool :=
  decide (10 ≤ t.length) &&
    t.all (fun c => ('A' ≤ c && c ≤ 'Z') || isPySpace c)

/-- re.search of ^\d{1,2}/\d{1,2}/\d{2,4}$ (a date). -/
def dateArtifact (t : Str) : Bool :=
  (decide (1 ≤ (t.takeWhile isDigitAscii).length) &&
    decide ((t.takeWhile isDigitAscii).length ≤ 2)) &&
  (match t.dropWhile isDigitAscii with
   | c :: s2 =>
     decide (c = '/') &&
       ((decide (1 ≤ (s2.takeWhile isDigitAscii).length) &&
         decide ((s2.takeWhile isDigitAscii).length ≤ 2)) &&
        (match s2.dropWhile isDigitAscii with
         | c2 :: s4 =>
           decide (c2 = '/') && s4.all isDigitAscii &&
             (decide (2 ≤ s4.length) && decide (s4.length ≤ 4))
         | [] => false))
   | [] => false)

/-- TextCleaner._is_likely_artifact.  Digit and letter classes are
embedded at their ASCII fragments. -/
def isLikelyArtifact (t0 : Str) : Bool :=
  let t := pyStrip t0
  matchNumOnly t || matchPageN t || matchNSlashM t || matchDashNDash t ||
  allCapsArtifact t || dateArtifact t ||
  (chompCI ("www.".toList) t).isSome ||
  t.any (fun c => c = '@') ||
  t.any (fun c => c = Char.ofNat 169) ||
  (decide (t.length ≤ 3) && !(!t.isEmpty && t.all isAlphaAscii)) ||
  (!t.isEmpty && t.all (fun c =>
    isDigitAscii c || isPySpace c || c = '-' || c = '.' || c = '/'))

/-- _extract_page_texts: the stripped text of every text content block,
followed by the stripped text of every span (both are collected, so a
one-span block contributes two occurrences of the same text). -/
def extractPageTexts (page : PageContent) : List (Str × BBox) :=
  (page.contentBlocks.filterMap (fun b =>
    if b.isTextBlock ∧ pyStrip b.text ≠ [] then some (pyStrip b.text, b.bbox)
    else none)) ++
  (page.contentBlocks.flatMap (fun b =>
    b.lines.flatMap (fun l =>
      l.spans.filterMap (fun sp =>
        if pyStrip sp.text ≠ [] then some (pyStrip sp.text, sp.bbox)
        else none))))

/-- One occurrence record of _detect_artifacts' scan: (text, page_number,
bbox), kept only when the stripped text has length at least 2. -/
def artifactEntries (pages : List PageContent) : List (Str × Nat × BBox) :=
  pages.flatMap (fun p =>
    (extractPageTexts p).filterMap (fun tb =>
      if 2 ≤ (pyStrip tb.1).length then some (tb.1, p.pageNumber, tb.2)
      else none))

/-- text_frequency[t]: every occurrence counts, not distinct pages. -/
def textFreqCount (pages : List PageContent) (t : Str) : Nat :=
  (artifactEntries pages).countP (fun e => decide (pyStrip e.1 = t))

/-- Counter key iteration order: order of first occurrence. -/
def freqKeys (pages : List PageContent) : List Str :=
  firstOccs ((artifactEntries pages).map (fun e => pyStrip e.1))

/-- position_groups key iteration order. -/
def posKeys (pages : List PageContent) : List (ℚ × ℚ) :=
  firstOccs ((artifactEntries pages).map (fun e => posKey e.2.2))

/-- position_groups[k]. -/
def groupEntries (pages : List PageContent) (k : ℚ × ℚ) :
    List (Str × Nat × BBox) :=
  (artifactEntries pages).filter (fun e => decide (posKey e.2.2 = k))

/-- text_cleaner.py TextArtifact.  The pages field is a set; only
membership in it is ever consumed, so it is kept as the list of page
numbers in scan order. -/
structure TextArtifact where
  text : Str
  bbox : Option BBox
  pages : List Nat
  deriving DecidableEq, Repr

/-- All entries whose stripped text equals t, in position-group iteration
order (method 1's inner scan over position_groups). -/
def matchingEntries (pages : List PageContent) (t : Str) :
    List (Str × Nat × BBox) :=
  (posKeys pages).flatMap (fun k =>
    (groupEntries pages k).filter (fun e => decide (pyStrip e.1 = t)))

/-- Method 1 of _detect_artifacts: frequently occurring text. -/
def method1Artifacts (thr : ℚ) (pages : List PageContent) :
    List TextArtifact :=
  (freqKeys pages).filterMap (fun t =>
    if artifactThresholdCount thr pages.length ≤ textFreqCount pages t ∧
        isLikelyArtifact t = true then
      some { text := t,
             bbox := ((matchingEntries pages t).head?).map (fun e => e.2.2),
             pages := (matchingEntries pages t).map (fun e => e.2.1) }
    else none)

/-- Method 2 of _detect_artifacts: text recurring at a consistent
header/footer position.  pages[0] is only touched when some group is
nonempty, which forces pages to be nonempty. -/
def method2Artifacts (thr : ℚ) (pages : List PageContent) :
    List TextArtifact :=
  match pages with
  | [] => []
  | p0 :: _ =>
    (posKeys pages).flatMap (fun k =>
      let es := groupEntries pages k
      if artifactThresholdCount thr pages.length ≤ es.length ∧
          (match es.head? with
           | some e => isHeaderFooterPosition e.2.2 p0
           | none => false) = true then
        (firstOccs (es.map (fun e => pyStrip e.1))).filterMap (fun t =>
          let grp := es.filter (fun e => decide (pyStrip e.1 = t))
          if artifactThresholdCount thr pages.length ≤ grp.length then
            some { text := t, bbox := (grp.head?).map (fun e => e.2.2),
                   pages := grp.map (fun e => e.2.1) }
          else none)
      else [])

/-- TextCleaner._detect_artifacts. -/
def detectArtifacts (thr : ℚ) (pages : List PageContent) :
    List TextArtifact :=
  method1Artifacts thr pages ++ method2Artifacts thr pages

/-- TextCleaner._clean_text_lines. -/
def cleanTextLines (lines : List TextLine) : List TextLine :=
  lines.filterMap (fun l =>
    let spans := l.spans.filterMap (fun sp =>
      if pyStrip (normalizeText sp.text) ≠ [] then
        some { sp with text := normalizeText sp.text }
      else none)
    if spans ≠ [] then some { l with spans := spans } else none)

/-- TextCleaner._clean_page. -/
def cleanPage (page : PageContent) (artifacts : List TextArtifact) :
    PageContent :=
  let artifactTexts : List Str :=
    (artifacts.filter (fun a => page.pageNumber ∈ a.pages)).map
      TextArtifact.text
  { pageNumber := page.pageNumber
    pageWidth := page.pageWidth
    pageHeight := page.pageHeight
    rotation := page.rotation
    contentBlocks := page.contentBlocks.filterMap (fun b =>
      if ¬ b.isTextBlock then some b
      else if pyStrip b.text ∈ artifactTexts then none
      else if pyStrip (normalizeText b.text) ≠ [] then
        some { b with lines := cleanTextLines b.lines }
      else none)
    textBlocks := page.textBlocks.filterMap (fun tb =>
      if pyStrip tb.text ∉ artifactTexts ∧
          pyStrip (normalizeText tb.text) ≠ [] then
        some { text := normalizeText tb.text, contentType := tb.contentType,
               bbox := tb.bbox, confidence := tb.confidence }
      else none) }

/-- TextCleaner.clean_pages. -/
def cleanPages (thr : ℚ) (pages : List PageContent) : List PageContent :=
  if pages = [] then pages
  else pages.map (fun p => cleanPage p (detectArtifacts thr pages))

/-- Modelled from the spec: the claimed page-count cutoff
ceil(total_pages * artifact_threshold). -/
def specCeilCutoff (thr : ℚ) (totalPages : Nat) : ℤ :=
  ⌈(totalPages : ℚ) * thr⌉

/-- Modelled from the spec: the number of distinct pages on which the
stripped text t occurs. -/
def distinctPagesWith (pages : List PageContent) (t : Str) : Nat :=
  (pages.filter (fun p =>
    (extractPageTexts p).any (fun e => decide (pyStrip e.1 = t)))).length

def c6Font : FontInfo := { fontName := "F".toList, fontSize := 10 }

def c6Box (x y : ℚ) : BBox := { x0 := x, y0 := y, x1 := x + 50, y1 := y + 10 }

def c6Block (n : Nat) (t : Str) (x y : ℚ) : ContentBlock :=
  { blockNumber := n, blockType := 0, bbox := c6Box x y,
    lines := [{ spans := [{ text := t, bbox := c6Box x y,
                            fontInfo := c6Font }],
                bbox := c6Box x y }] }

def c6Page (n : Nat) (blocks : List ContentBlock) : PageContent :=
  { pageNumber := n, pageWidth := 100, pageHeight := 100,
    contentBlocks := blocks }

def c6ArtText : Str := "© Acme Corp".toList

/-- Five pages; "© Acme Corp" sits mid-page on pages 1 and 2 only. -/
def c6Pages : List PageContent :=
  [c6Page 1 [c6Block 0 ("Alpha body".toList) 20 40,
             c6Block 1 c6ArtText 20 60],
   c6Page 2 [c6Block 0 ("Beta body".toList) 20 40,
             c6Block 1 c6ArtText 20 60],
   c6Page 3 [c6Block 0 ("Gamma body".toList) 20 40],
   c6Page 4 [c6Block 0 ("Delta body".toList) 20 40],
   c6Page 5 [c6Block 0 ("Epsilon body".toList) 20 40]]

-- C6 counterexample: with 5 pages and the default threshold 0.5 the
-- claim's page-count cutoff is ceil(2.5) = 3, and "© Acme Corp" occurs
-- on only 2 distinct pages, so per the claim it must not be removed;
-- but the code's cutoff is max(1, int(2.5)) = 2 occurrences (truncation,
-- and occurrences rather than distinct pages — each one-span block even
-- counts twice), so the text is flagged and clean_pages removes it.
unseal Rat.mul Rat.add Rat.inv Rat.sub Rat.ofScientific in
theorem C6_not_ceil_page_count :
    specCeilCutoff (1/2) 5 = 3 ∧
    distinctPagesWith c6Pages c6ArtText = 2 ∧
    artifactThresholdCount (1/2) 5 = 2 ∧
    textFreqCount c6Pages c6ArtText = 4 ∧
    c6ArtText ∈ (detectArtifacts (1/2) c6Pages).map TextArtifact.text ∧
    ((cleanPages (1/2) c6Pages).getD 0 (c6Page 0 [])).contentBlocks.length = 1 ∧
    (c6Pages.getD 0 (c6Page 0 [])).contentBlocks.length = 2 := by
  decide

theorem mem_firstOccs {α : Type _} [DecidableEq α] {a : α} :
    ∀ {l : List α}, a ∈ firstOccs l ↔ a ∈ l := by
  intro l
  induction l with
  | nil => exact Iff.rfl
  | cons x xs ih =>
    rw [firstOccs]
    constructor
    · intro h
      rcases List.mem_cons.mp h with rfl | h
      · exact List.mem_cons_self _ _
      · exact List.mem_cons_of_mem _ (ih.mp (List.mem_of_mem_filter h))
    · intro h
      rcases List.mem_cons.mp h with rfl | h
      · exact List.mem_cons_self _ _
      · by_cases hax : a = x
        · exact hax ▸ List.mem_cons_self _ _
        · exact List.mem_cons_of_mem _
            (List.mem_filter.mpr ⟨ih.mpr h, by simpa using hax⟩)

theorem one_le_artifactThresholdCount (thr : ℚ) (n : Nat) :
    1 ≤ artifactThresholdCount thr n := by
  have h1 : (1 : ℤ) ≤ max 1 (pyInt (n * thr)) := le_max_left 1 _
  have := Int.toNat_le_toNat h1
  simp [artifactThresholdCount]

/-- C6 (amended): the frequency method of _detect_artifacts flags a
stripped text exactly when its total occurrence count across blocks and
spans of all pages (not its distinct-page count) reaches the cutoff
max(1, int(total_pages * threshold)) (truncation, not ceiling) and
_is_likely_artifact accepts it. -/
theorem C6_freq_flag_iff (thr : ℚ) (pages : List PageContent) (t : Str) :
    (∃ a ∈ method1Artifacts thr pages, a.text = t) ↔
      (artifactThresholdCount thr pages.length ≤ textFreqCount pages t ∧
        isLikelyArtifact t = true) := by
  constructor
  · intro ⟨a, ha, hat⟩
    obtain ⟨u, hu, hif⟩ := List.mem_filterMap.mp ha
    by_cases hc : artifactThresholdCount thr pages.length ≤
        textFreqCount pages u ∧ isLikelyArtifact u = true
    · rw [if_pos hc] at hif
      obtain rfl := Option.some.inj hif
      rw [← hat]
      exact hc
    · rw [if_neg hc] at hif
      exact absurd hif (Option.noConfusion)
  · intro hc
    have hpos : 0 < textFreqCount pages t :=
      lt_of_lt_of_le (one_le_artifactThresholdCount thr pages.length) hc.1
    obtain ⟨e, he, hpe⟩ := List.countP_pos_iff.mp hpos
    have hmem : t ∈ freqKeys pages := by
      rw [freqKeys, mem_firstOccs]
      exact List.mem_map.mpr ⟨e, he, of_decide_eq_true hpe⟩
    refine ⟨{ text := t,
              bbox := ((matchingEntries pages t).head?).map (fun e => e.2.2),
              pages := (matchingEntries pages t).map (fun e => e.2.1) },
      List.mem_filterMap.mpr ⟨t, hmem, ?_⟩, rfl⟩
    rw [if_pos hc]

/- ===================== table_normalizer.py ===================== -/

/-- re.sub of a one-character-class + (a maximal run of characters
satisfying p) by a single space.  Structurally recursive with one
character of lookahead. -/
def subRuns (p : Char → Bool) : Str → Str
  | [] => []
  | [c] => if p c then [' '] else [c]
  | c :: d :: rest =>
    if p c then
      (if p d then subRuns p (d :: rest) else ' ' :: subRuns p (d :: rest))
    else c :: subRuns p (d :: rest)

/-- The [\r\n] character class. -/
def isCrLf (c : Char) : Bool := c = Char.ofNat 13 || c = '\n'

/-- TableNormalizer._clean_cell_content with the default options
(strip_whitespace and normalize_spacing both True).  Note the
nan/none/null sentinel test runs on the raw, unstripped content. -/
def cleanCellContent (content : Str) : Str :=
  if content = [] ∨
      pyLower content ∈ [("nan".toList), ("none".toList), ("null".toList)] then
    []
  else
    subRuns isCrLf (subRuns isPySpace (pyStrip content))

/-- TableNormalizer._normalize_list_of_lists on cells that are either a
string or Python None (str(cell) is the identity on the string cells). -/
def normalizeListOfLists (table : List (List (Option Str))) :
    List (List Str) :=
  table.map (fun row => row.map (fun cell =>
    match cell with
    | some c => cleanCellContent c
    | none => []))

/-- Modelled from the spec: whitespace normalization of a cell — strip
leading and trailing whitespace, collapse internal whitespace runs to one
space (which also replaces newlines by spaces). -/
def wsNormalizeSpec (s : Str) : Str :=
  subRuns isPySpace (pyStrip s)

/-- C9 counterexample: the string cell "none" is not returned up to
whitespace normalization — the sentinel check of _clean_cell_content
erases it to the empty string. -/
theorem C9_sentinel_not_ws_normalization :
    normalizeListOfLists [[some ("none".toList)]] = [[[]]] ∧
    wsNormalizeSpec ("none".toList) = "none".toList ∧
    normalizeListOfLists [[some ("none".toList)]] ≠
      [[wsNormalizeSpec ("none".toList)]] := by
  decide

theorem mem_subRuns_of_p {p : Char → Bool} {c : Char} :
    ∀ {s : Str}, c ∈ subRuns p s → (c ∈ s ∧ p c = false) ∨ c = ' ' := by
  intro s
  induction s using subRuns.induct p with
  | case1 => intro h; exact absurd h (List.not_mem_nil _)
  | case2 d hd =>
    intro h
    rw [subRuns, if_pos hd] at h
    exact Or.inr (List.mem_singleton.mp h)
  | case3 d hd =>
    intro h
    rw [subRuns, if_neg hd] at h
    rcases List.mem_singleton.mp h with rfl
    exact Or.inl ⟨List.mem_singleton.mpr rfl, Bool.eq_false_iff.mpr hd⟩
  | case4 a d rest ha hd ih =>
    intro h
    rw [subRuns, if_pos ha, if_pos hd] at h
    rcases ih h with ⟨hm, hp⟩ | hsp
    · exact Or.inl ⟨List.mem_cons_of_mem _ hm, hp⟩
    · exact Or.inr hsp
  | case5 a d rest ha hd ih =>
    intro h
    rw [subRuns, if_pos ha, if_neg hd] at h
    rcases List.mem_cons.mp h with rfl | h
    · exact Or.inr rfl
    · rcases ih h with ⟨hm, hp⟩ | hsp
      · exact Or.inl ⟨List.mem_cons_of_mem _ hm, hp⟩
      · exact Or.inr hsp
  | case6 a d rest ha ih =>
    intro h
    rw [subRuns, if_neg ha] at h
    rcases List.mem_cons.mp h with rfl | h
    · exact Or.inl ⟨List.mem_cons_self _ _, Bool.eq_false_iff.mpr ha⟩
    · rcases ih h with ⟨hm, hp⟩ | hsp
      · exact Or.inl ⟨List.mem_cons_of_mem _ hm, hp⟩
      · exact Or.inr hsp

theorem subRuns_id (p : Char → Bool) :
    ∀ (s : Str), (∀ c ∈ s, p c = false) → subRuns p s = s := by
  intro s
  induction s using subRuns.induct p with
  | case1 => intro _; rfl
  | case2 d hd =>
    intro h
    exact absurd (h d (List.mem_singleton.mpr rfl)) (by simp [hd])
  | case3 d hd =>
    intro h
    rw [subRuns, if_neg hd]
  | case4 a d rest ha hd ih =>
    intro h
    exact absurd (h a (List.mem_cons_self _ _)) (by simp [ha])
  | case5 a d rest ha hd ih =>
    intro h
    exact absurd (h a (List.mem_cons_self _ _)) (by simp [ha])
  | case6 a d rest ha ih =>
    intro h
    rw [subRuns, if_neg ha,
      ih (fun c hc => h c (List.mem_cons_of_mem _ hc))]

/-- C9 (amended): _normalize_list_of_lists is cell-wise whitespace
normalization except on the sentinel cells: a None cell, an empty string,
or a string whose lowercase form is "nan", "none" or "null" becomes the
empty string; every other cell is stripped, with internal whitespace runs
collapsed to one space.  The final newline-to-space substitution of the
source is the identity at that point, since the whitespace collapse has
already removed every CR and LF. -/
theorem C9_normalize_is_ws_norm_except_sentinels
    (table : List (List (Option Str))) :
    normalizeListOfLists table = table.map (fun row => row.map (fun cell =>
      match cell with
      | none => []
      | some c =>
        if c = [] ∨
            pyLower c ∈ [("nan".toList), ("none".toList), ("null".toList)]
          then []
        else wsNormalizeSpec c)) := by
  unfold normalizeListOfLists
  refine List.map_congr_left (fun row _ => List.map_congr_left (fun cell _ => ?_))
  rcases cell with _ | c
  · rfl
  · show cleanCellContent c =
      (if c = [] ∨
          pyLower c ∈ [("nan".toList), ("none".toList), ("null".toList)]
        then [] else wsNormalizeSpec c)
    unfold cleanCellContent
    by_cases hc : c = [] ∨
        pyLower c ∈ [("nan".toList), ("none".toList), ("null".toList)]
    · rw [if_pos hc, if_pos hc]
    · rw [if_neg hc, if_neg hc]
      exact subRuns_id isCrLf _ (fun ch hch => by
        rcases mem_subRuns_of_p hch with ⟨_, hpws⟩ | rfl
        · rcases hcr : isCrLf ch with _ | _
          · rfl
          · exfalso
            rw [isCrLf] at hcr
            rcases Bool.or_eq_true_iff.mp hcr with h13 | h10
            · rw [of_decide_eq_true h13] at hpws
              exact absurd hpws (by decide)
            · rw [of_decide_eq_true h10] at hpws
              exact absurd hpws (by decide)
        · rfl)

/- ============ table_wrappers.py / table_extractor.py (claim C7) ============ -/

/-- A raw extracted table: rows of string cells. -/
abbrev RawTable := List (List Str)

def colCounts (t : RawTable) : List Nat := t.map List.length

/-- max(col_counts) (0 on an empty table; only consulted when nonempty). -/
def maxCols (t : RawTable) : Nat := (colCounts t).foldl max 0

/-- min(col_counts). -/
def minCols (t : RawTable) : Nat :=
  match colCounts t with
  | [] => 0
  | c :: cs => cs.foldl min c

def totalCells (t : RawTable) : Nat := (colCounts t).sum

/-- Cells whose stripped content is nonempty. -/
def nonEmptyCells (t : RawTable) : Nat :=
  t.flatten.countP (fun cell => decide (pyStrip cell ≠ []))

/-- PdfplumberWrapper.validate_table. -/
def pdfplumberValidate (t : RawTable) : Bool :=
  if t = [] ∨ t.length < 2 then false
  else if t.headI = [] ∨ (t.headI).length < 2 then false
  else if (minCols t : ℚ) < (maxCols t : ℚ) * (1/2) then false
  else if totalCells t = 0 ∨
      ((nonEmptyCells t : ℚ) / (totalCells t : ℚ)) < 1/10 then false
  else true

/-- CamelotWrapper.validate_table: at least 2 rows, at least 2 columns in
the first row, at most 2 distinct column counts, content density at
least 0.2. -/
def camelotValidate (t : RawTable) : Bool :=
  if t = [] ∨ t.length < 2 then false
  else if t.headI = [] ∨ (t.headI).length < 2 then false
  else if 2 < (firstOccs (colCounts t)).length then false
  else if totalCells t = 0 ∨
      ((nonEmptyCells t : ℚ) / (totalCells t : ℚ)) < 1/5 then false
  else true

/-- TabulaWrapper.validate_table. -/
def tabulaValidate (t : RawTable) : Bool :=
  if t = [] ∨ t.length < 2 then false
  else if t.headI = [] ∨ (t.headI).length < 2 then false
  else if ((colCounts t).countP
        (fun c => decide ((maxCols t : ℚ) * (3/10) ≤ (c : ℚ))) : ℚ) <
      (t.length : ℚ) * (1/2) then false
  else if totalCells t = 0 ∨
      ((nonEmptyCells t : ℚ) / (totalCells t : ℚ)) < 1/20 then false
  else true

/-- TableNormalizer._estimate_table_quality. -/
def estimateTableQuality (numRows numCols : Nat) (density consistency : ℚ) :
    ℚ :=
  let structureScore := min 1 (((numRows : ℚ) - 1) * (numCols : ℚ) / 20)
  let contentScore := density * (4/5) + consistency * (1/5)
  max 0 (min 1 (structureScore * (3/10) + contentScore * (7/10)))

/-- TableNormalizer.analyze_table_structure, restricted to the two fields
extract_tables_from_page consumes: "valid" and "estimated_quality" (an
invalid result carries no quality key, so .get returns 0.0). -/
def analyzeTable (t : RawTable) : Bool × ℚ :=
  if t = [] then (false, 0)
  else if t.length < 2 then (false, 0)
  else
    let density :=
      if totalCells t = 0 then 0
      else (nonEmptyCells t : ℚ) / (totalCells t : ℚ)
    let consistency :=
      if maxCols t = 0 then 0 else (minCols t : ℚ) / (maxCols t : ℚ)
    (true, estimateTableQuality t.length (maxCols t) density consistency)

/-- The four backend invocations of one page, each try/except-wrapped in
the source: an .error is a raised exception. -/
structure BackendCalls where
  pdfplumberTables : Except Str (List RawTable)
  camelotLattice : Except Str (List RawTable)
  camelotStream : Except Str (List RawTable)
  tabulaTables : Except Str (List RawTable)
  deriving Repr

/-- One try-block of _extract_ruled_tables/_extract_unruled_tables: an
exception, an empty list, or no table passing validate all fall through
to the next backend. -/
def backendStage (res : Except Str (List RawTable))
    (validate : RawTable → Bool) : Option (List RawTable) :=
  match res with
  | .ok tables =>
    if tables ≠ [] ∧ tables.any validate = true then
      some (tables.filter validate)
    else none
  | .error _ => none

/-- TableExtractor._extract_ruled_tables: pdfplumber, then camelot
lattice. -/
def extractRuledTables (b : BackendCalls) : Bool × List RawTable × Str :=
  match backendStage b.pdfplumberTables pdfplumberValidate with
  | some ts => (true, ts, "pdfplumber".toList)
  | none =>
    match backendStage b.camelotLattice camelotValidate with
    | some ts => (true, ts, "camelot-lattice".toList)
    | none => (false, [], "none".toList)

/-- TableExtractor._extract_unruled_tables: camelot stream, then
tabula. -/
def extractUnruledTables (b : BackendCalls) : Bool × List RawTable × Str :=
  match backendStage b.camelotStream camelotValidate with
  | some ts => (true, ts, "camelot-stream".toList)
  | none =>
    match backendStage b.tabulaTables tabulaValidate with
    | some ts => (true, ts, "tabula".toList)
    | none => (false, [], "none".toList)

/-- The fields of table_extractor.TableExtractionResult consumed
downstream. -/
structure TableExtractionResult where
  tables : List RawTable := []
  methodUsed : Str := []
  qualityScores : List ℚ := []
  success : Bool := false
  errorMessage : Str := []
  deriving DecidableEq, Repr

/-- Step 2 of extract_tables_from_page: the strategy dispatch. -/
def chooseStrategy (strategy : Str) (b : BackendCalls) :
    Bool × List RawTable × Str :=
  if strategy = "ruled".toList then extractRuledTables b
  else extractUnruledTables b

/-- Step 3: on primary failure try the other chain (fallback_on_failure
defaults to True) and tag the method with the fallback- prefix. -/
def withFallback (strategy : Str) (b : BackendCalls) :
    Bool × List RawTable × Str :=
  let prim := chooseStrategy strategy b
  if prim.1 = false then
    let fb := if strategy = "ruled".toList then extractUnruledTables b
              else extractRuledTables b
    (fb.1, fb.2.1, "fallback-".toList ++ fb.2.2)
  else prim

/-- Step 4: keep the tables that analyze_table_structure accepts with
quality at least min_quality_score; success iff at least one survives. -/
def validateStep (minQuality : ℚ) (res : Bool × List RawTable × Str) :
    TableExtractionResult :=
  if res.1 = true ∧ res.2.1 ≠ [] then
    let validated := res.2.1.filter (fun t =>
      (analyzeTable t).1 && decide (minQuality ≤ (analyzeTable t).2))
    { tables := validated,
      qualityScores := validated.map (fun t => (analyzeTable t).2),
      methodUsed := res.2.2,
      success := decide (0 < validated.length),
      errorMessage := [] }
  else
    { tables := [], methodUsed := [], qualityScores := [],
      success := false,
      errorMessage := ("No tables extracted using any method".toList) }

/-- TableExtractor.extract_tables_from_page, with the recommended
strategy and the backend outcomes as inputs. -/
def extractTablesFromPage (strategy : Str) (minQuality : ℚ)
    (b : BackendCalls) : TableExtractionResult :=
  validateStep minQuality (withFallback strategy b)

theorem camelotValidate_rows {t : RawTable}
    (hv : camelotValidate t = true) : ¬ (t = [] ∨ t.length < 2) := by
  intro hc
  unfold camelotValidate at hv
  rw [if_pos hc] at hv
  exact Bool.noConfusion hv

theorem analyzeTable_fst {t : RawTable} (h : ¬ (t = [] ∨ t.length < 2)) :
    (analyzeTable t).1 = true := by
  unfold analyzeTable
  rw [if_neg (not_or.mp h).1, if_neg (not_or.mp h).2]

/-- C7: with a ruled recommendation, if the pdfplumber backend raises but
camelot lattice returns a table list containing a validate_table-passing
table whose estimated quality reaches min_quality_score, then the result
has success = True, method_used = "camelot-lattice" (no fallback- prefix:
lattice sits in the primary ruled chain) and an empty error_message —
the pdfplumber exception is swallowed. -/
theorem C7_pdfplumber_error_camelot_ok (b : BackendCalls) (msg : Str)
    (ts : List RawTable) (t : RawTable) (minQ : ℚ)
    (hpdf : b.pdfplumberTables = .error msg)
    (hcam : b.camelotLattice = .ok ts)
    (ht : t ∈ ts) (hv : camelotValidate t = true)
    (hq : minQ ≤ (analyzeTable t).2) :
    (extractTablesFromPage ("ruled".toList) minQ b).success = true ∧
    (extractTablesFromPage ("ruled".toList) minQ b).methodUsed =
      "camelot-lattice".toList ∧
    (extractTablesFromPage ("ruled".toList) minQ b).errorMessage = [] := by
  have h1 : backendStage b.pdfplumberTables pdfplumberValidate = none := by
    rw [hpdf]
    rfl
  have h2 : backendStage b.camelotLattice camelotValidate =
      some (ts.filter camelotValidate) := by
    rw [hcam]
    show (if ts ≠ [] ∧ ts.any camelotValidate = true then
        some (ts.filter camelotValidate) else none) =
      some (ts.filter camelotValidate)
    rw [if_pos ⟨List.ne_nil_of_mem ht, List.any_eq_true.mpr ⟨t, ht, hv⟩⟩]
  have hruled : extractRuledTables b =
      (true, ts.filter camelotValidate, "camelot-lattice".toList) := by
    unfold extractRuledTables
    rw [h1, h2]
  have hchoose : chooseStrategy ("ruled".toList) b = extractRuledTables b := by
    unfold chooseStrategy
    rw [if_pos rfl]
  have hwf : withFallback ("ruled".toList) b =
      (true, ts.filter camelotValidate, "camelot-lattice".toList) := by
    unfold withFallback
    rw [hchoose, hruled]
    rfl
  have hmem : t ∈ ts.filter camelotValidate :=
    List.mem_filter.mpr ⟨ht, hv⟩
  have hmem2 : t ∈ (ts.filter camelotValidate).filter (fun t =>
      (analyzeTable t).1 && decide (minQ ≤ (analyzeTable t).2)) := by
    refine List.mem_filter.mpr ⟨hmem, ?_⟩
    rw [analyzeTable_fst (camelotValidate_rows hv), decide_eq_true hq]
    rfl
  unfold extractTablesFromPage
  rw [hwf]
  unfold validateStep
  rw [if_pos ⟨rfl, List.ne_nil_of_mem hmem⟩]
  refine ⟨?_, rfl, rfl⟩
  exact decide_eq_true (List.length_pos.mpr (List.ne_nil_of_mem hmem2))

def c7Table : RawTable :=
  [[("a".toList), ("b".toList)],
   [("c".toList), ("d".toList)],
   [("e".toList), ("f".toList)]]

def c7Calls : BackendCalls :=
  { pdfplumberTables := .error ("pdfplumber raised".toList),
    camelotLattice := .ok [c7Table],
    camelotStream := .ok [],
    tabulaTables := .ok [] }

-- C7 witness: the theorem applied to a fully dense 3x2 table (quality
-- 0.3*0.2 + 0.7*1.0 = 0.76 ≥ 0.3) behind an erroring pdfplumber call.
unseal Rat.mul Rat.add Rat.inv Rat.sub Rat.ofScientific in
theorem C7_witness :
    (c7Calls.pdfplumberTables = .error ("pdfplumber raised".toList) ∧
     c7Calls.camelotLattice = .ok [c7Table] ∧
     c7Table ∈ [c7Table] ∧ camelotValidate c7Table = true ∧
     (3 : ℚ)/10 ≤ (analyzeTable c7Table).2) ∧
    ((extractTablesFromPage ("ruled".toList) (3/10) c7Calls).success = true ∧
     (extractTablesFromPage ("ruled".toList) (3/10) c7Calls).methodUsed =
       "camelot-lattice".toList ∧
     (extractTablesFromPage ("ruled".toList) (3/10) c7Calls).errorMessage
       = []) :=
  ⟨⟨rfl, rfl, List.mem_singleton.mpr rfl, by decide, by decide⟩,
   C7_pdfplumber_error_camelot_ok c7Calls ("pdfplumber raised".toList)
     [c7Table] c7Table (3/10) rfl rfl (List.mem_singleton.mpr rfl)
     (by decide) (by decide)⟩

end PdfExtract
